import Mathlib

/-!
# Snake board decoder (`snake/src/game_setup.c`)

A shallow embedding of `set_dimensions`, `get_cell_pos`, `fill_cells`,
`initialize_default_board`, `initialize_game` and `decompress_board_str`, for an
LP64 target: `int` is 32 bits, `long` and `size_t` are 64 bits, and a conversion to
`int` reduces modulo `2^32`.  A C string is a list of characters cut at the first
NUL; one list element stands for one `char`.

`int` arithmetic is the arithmetic of the target: a sum of two `int`s wraps modulo
`2^32`, and `atoi` is `(int)strtol(s, NULL, 10)`, as in the C library at hand, so a
count that does not fit in `int` is reduced modulo `2^32` and the decoder goes on.
An access outside an object (a store outside the cell array, or behind the end of
`num_str`) is an explicit outcome of the model, never a value.

The allocator is a parameter: `malloc` for the cell array may return `NULL`, which
the code checks.  The array of the default board (`malloc(20 * 10 * sizeof(int))`,
not checked by the code) goes through the same allocator: when it is refused, the
stores go through a null pointer.  The copy of the input that the decoder makes first
(`malloc(strlen(compressed) + 1)`, not checked by the code) is taken to be granted,
and `free` changes nothing that is modelled.  The function `place_food` that
`initialize_game` calls last is defined elsewhere and is a parameter.
-/

namespace Snake

/-- The result codes of `enum board_init_status` (declared in `game_setup.h`). -/
inductive board_init_status where
  | INIT_SUCCESS
  | INIT_ERR_INCORRECT_DIMENSIONS
  | INIT_ERR_WRONG_SNAKE_NUM
  | INIT_ERR_BAD_CHAR
  deriving DecidableEq, Repr

open board_init_status

/-- The ways in which an execution can leave defined behaviour. -/
inductive Undefined where
  /-- An access behind the end of `char num_str[20]`: a 21st digit is stored there,
  or the digits fill the array and `atoi` reads on for the terminator. -/
  | num_str_bounds
  /-- A store through `cells` lands outside the block `malloc` returned. -/
  | out_of_bounds
  deriving DecidableEq, Repr

/-- What the translation unit takes from outside: the cell flags and `INPUT_NONE`
(constants of `common.h` and `game.h`, which are not part of the sources at hand),
and the allocator: whether `malloc` grants a request of so many bytes, and the
indeterminate content of a fresh block. -/
structure Platform where
  PLAIN_CELL : Nat
  FLAG_SNAKE : Nat
  FLAG_WALL : Nat
  FLAG_GRASS : Nat
  INPUT_NONE : Nat
  malloc_ok : Nat → Bool
  fresh : Nat → Nat

/-- The snake bit is a bit of its own: `FLAG_SNAKE` has it, the other three cell
values do not (this is what `cells[i] & FLAG_SNAKE` relies on). -/
def Platform.flags_ok (P : Platform) : Prop :=
  P.FLAG_SNAKE &&& P.FLAG_SNAKE ≠ 0 ∧ P.FLAG_WALL &&& P.FLAG_SNAKE = 0 ∧
  P.PLAIN_CELL &&& P.FLAG_SNAKE = 0 ∧ P.FLAG_GRASS &&& P.FLAG_SNAKE = 0

instance (P : Platform) : Decidable P.flags_ok := by
  unfold Platform.flags_ok; exact inferInstance

/-- An `int` array obtained from `malloc`: its length in cells, its content, and
(ghost state) the indices stored to so far, oldest first. -/
structure Mem where
  size : Nat
  read : Nat → Nat
  log : List Nat

/-- The objects `decompress_board_str` may write for its caller: `*cells_p`
(identified with the array it addresses), `*width_p`, `*height_p`, and the globals
`snake_head` and `direction`. -/
structure Game where
  cells : Mem
  width : Nat
  height : Nat
  snake_head : Int
  direction : Nat

/-- How a call ends: with undefined behaviour, or by returning a value. -/
inductive Exec (α : Type) where
  | undefined (u : Undefined)
  | done (a : α)

/-- How a piece of a loop body ends: with undefined behaviour, with a `return` of
the enclosing function, or by falling through with new values of the locals. -/
inductive Flow (σ : Type) where
  | undefined (u : Undefined)
  | exit (status : board_init_status)
  | next (s : σ)

def LONG_MAX : Int := 9223372036854775807

def LONG_MIN : Int := -9223372036854775808

/-- The conversion `(int)x` of a `size_t` value: reduction modulo `2^32` into the
range of `int`. -/
def to_int (x : Nat) : Int :=
  if x % 4294967296 < 2147483648 then (x % 4294967296 : Nat) else (x % 4294967296 : Nat) - 4294967296

/-- The conversion `(size_t)v` of a `long` value. -/
def to_size_t (v : Int) : Nat := (v % 18446744073709551616).toNat

/-- Multiplication in `size_t`. -/
def size_mul (a b : Nat) : Nat := (a * b) % 18446744073709551616

/-- The conversion `(int)v` of a `long` value, and the `int` the target leaves for a
sum `v` of two `int`s: reduction modulo `2^32` into the range of `int`. -/
def int_of_long (v : Int) : Int := (v + 2147483648) % 4294967296 - 2147483648

/-- Addition in `int`, as the target computes it: the sum wraps modulo `2^32`. -/
def int_add (a b : Int) : Int := int_of_long (a + b)

def isdigit (c : Char) : Bool := decide (48 ≤ c.toNat ∧ c.toNat ≤ 57)

/-- The white space of the C locale: space, `\t`, `\n`, `\v`, `\f`, `\r`. -/
def isspace (c : Char) : Bool := decide (c.toNat = 32 ∨ (9 ≤ c.toNat ∧ c.toNat ≤ 13))

def digit_value (c : Char) : Nat := c.toNat - 48

/-- The number denoted by the longest prefix of decimal digits, continuing from
`acc`; `0` from `acc = 0` when there is no digit. -/
def digits_value : List Char → Nat → Nat
  | [], acc => acc
  | c :: cs, acc => if isdigit c then digits_value cs (acc * 10 + digit_value c) else acc

/-- The library function `strtol(s, NULL, 10)`: white space, an optional sign, the
longest run of digits; out-of-range values are clamped to `LONG_MIN`/`LONG_MAX`. -/
def strtol (s : List Char) : Int :=
  match s.dropWhile isspace with
  | [] => 0
  | c :: cs =>
    if c = '-' then max (-(digits_value cs 0 : Int)) LONG_MIN
    else if c = '+' then min (digits_value cs 0 : Int) LONG_MAX
    else min (digits_value (c :: cs) 0 : Int) LONG_MAX

/-- The library function `atoi`, as the C library has it: `(int)strtol(s, NULL, 10)`.
A value outside `int` is reduced modulo `2^32`. -/
def atoi (s : List Char) : Int := int_of_long (strtol s)

/-- The string a `char*` denotes: the characters before the first NUL. -/
def c_string (s : List Char) : List Char := s.takeWhile (fun c => c.toNat ≠ 0)

/-- The pieces of `s` between the separators `'|'` (empty pieces included). -/
def split_bar : List Char → List (List Char)
  | [] => [[]]
  | c :: cs =>
    if c = '|' then [] :: split_bar cs
    else match split_bar cs with
      | [] => [[c]]
      | t :: ts => (c :: t) :: ts

/-- The tokens that `strtok(s, "|")` followed by repeated `strtok(NULL, "|")` yields,
in order: `strtok` skips separators before a token and so never yields an empty
one. -/
def strtok_all (s : List Char) : List (List Char) :=
  (split_bar s).filter (fun t => !t.isEmpty)

/-- The function `strchr(s, 'x')`, as the string starting at the first `'x'`;
`none` for `NULL`. -/
def strchr_x : List Char → Option (List Char)
  | [] => none
  | c :: cs => if c = 'x' then some (c :: cs) else strchr_x cs

/-- The function `set_dimensions`: the status, and the values of `*height_p` and
`*width_p` afterwards (`height` and `width` are their values before). -/
def set_dimensions (dim_str : List Char) (height width : Nat) : board_init_status × Nat × Nat :=
  match dim_str with
  | [] => (INIT_ERR_BAD_CHAR, height, width)
  | c :: height_start =>
    if c ≠ 'B' then (INIT_ERR_BAD_CHAR, height, width)
    else
      match strchr_x height_start with
      | none => (INIT_ERR_BAD_CHAR, height, width)
      | some width_start =>
        let height1 := to_size_t (strtol height_start)
        let width1 := to_size_t (strtol width_start.tail)
        if height1 = 0 ∨ width1 = 0 then (INIT_ERR_BAD_CHAR, height1, width1)
        else (INIT_SUCCESS, height1, width1)

/-- The function `get_cell_pos`: `row * width + col` in `size_t`, returned as `int`. -/
def get_cell_pos (row col width : Nat) : Int :=
  to_int ((size_mul row width + col) % 18446744073709551616)

/-- The assignment `cells[idx] = v`; `none` when `idx` is outside the array. -/
def store (cells : Mem) (idx : Int) (v : Nat) : Option Mem :=
  if 0 ≤ idx ∧ idx < cells.size then
    some { cells with read := Function.update cells.read idx.toNat v, log := cells.log ++ [idx.toNat] }
  else none

/-- The loop `for (int i = 0; i < count; i++) cells[start_pos + i] = flag;` with
`n` iterations to go from the current `i`. -/
def fill_loop (flag : Nat) (start_pos : Int) : Nat → Int → Mem → Exec Mem
  | 0, _, cells => .done cells
  | n + 1, i, cells =>
    match store cells (int_add start_pos i) flag with
    | none => .undefined .out_of_bounds
    | some cells1 => fill_loop flag start_pos n (i + 1) cells1

/-- The function `fill_cells`: the status, the array and `*snake_count` afterwards. -/
def fill_cells (P : Platform) (cells : Mem) (start_pos count : Int) (cell_type : Char)
    (snake_count : Nat) : Exec (board_init_status × Mem × Nat) :=
  let go (flag : Nat) (snake_count1 : Nat) : Exec (board_init_status × Mem × Nat) :=
    match fill_loop flag start_pos count.toNat 0 cells with
    | .undefined u => .undefined u
    | .done cells1 => .done (INIT_SUCCESS, cells1, snake_count1)
  if cell_type = 'W' then go P.FLAG_WALL snake_count
  else if cell_type = 'E' then go P.PLAIN_CELL snake_count
  else if cell_type = 'G' then go P.FLAG_GRASS snake_count
  else if cell_type = 'S' then
    if count ≠ 1 then .done (INIT_ERR_WRONG_SNAKE_NUM, cells, snake_count)
    else go P.FLAG_SNAKE ((snake_count + 1) % 18446744073709551616)
  else .done (INIT_ERR_BAD_CHAR, cells, snake_count)

/-- The locals of `decompress_board_str` that its loops change. -/
structure Locals where
  cells : Mem
  snake_count : Nat
  cell_pos : Int
  row_count : Nat
  row_cells : Int

/-- The body of the run loop from `if (num_idx == 0)` to `cell_pos += count`, for
the run with symbol `cell_type` whose digits are `num_str`. -/
def run_body (P : Platform) (width total_cells : Nat) (cell_type : Char) (num_str : List Char)
    (L : Locals) : Flow Locals :=
  if num_str.length = 0 then .exit INIT_ERR_BAD_CHAR
  else if 20 ≤ num_str.length then .undefined .num_str_bounds
  else
    let count := atoi num_str
    let row_cells := int_add L.row_cells count
    if row_cells > to_int width then .exit INIT_ERR_INCORRECT_DIMENSIONS
    else if int_add L.cell_pos count > to_int total_cells then
      .exit INIT_ERR_INCORRECT_DIMENSIONS
    else
      match fill_cells P L.cells L.cell_pos count cell_type L.snake_count with
      | .undefined u => .undefined u
      | .done (status, cells, snake_count) =>
        if status ≠ INIT_SUCCESS then .exit status
        else .next { L with cells := cells, snake_count := snake_count,
                            cell_pos := int_add L.cell_pos count, row_cells := row_cells }

/-- The loop `while (i < strlen(token))` over the unread part of the token, entered
after `cell_type = token[i]; i++` with `num_str` the digits read so far: a digit is
one turn of the inner digit loop; any other character, or the end of the token,
ends the inner loop, runs the rest of the body for the finished run, and (for a
character) starts the next turn with it as `cell_type`. -/
def scan_runs (P : Platform) (width total_cells : Nat) :
    List Char → Char → List Char → Locals → Flow Locals
  | [], cell_type, num_str, L => run_body P width total_cells cell_type num_str L
  | c :: rest, cell_type, num_str, L =>
    if isdigit c then
      if 20 ≤ num_str.length then .undefined .num_str_bounds
      else scan_runs P width total_cells rest cell_type (num_str ++ [c]) L
    else
      match run_body P width total_cells cell_type num_str L with
      | .next L1 => scan_runs P width total_cells rest c [] L1
      | r => r

/-- One turn of the loop `while ((token = strtok(NULL, "|")) != NULL)`. -/
def row_step (P : Platform) (width height total_cells : Nat) (token : List Char)
    (L : Locals) : Flow Locals :=
  if L.row_count ≥ height then .exit INIT_ERR_INCORRECT_DIMENSIONS
  else
    let runs : Flow Locals :=
      match token with
      | [] => .next { L with row_cells := 0 }
      | cell_type :: rest => scan_runs P width total_cells rest cell_type [] { L with row_cells := 0 }
    match runs with
    | .next L1 =>
      if L1.row_cells ≠ to_int width then .exit INIT_ERR_INCORRECT_DIMENSIONS
      else .next { L1 with row_count := L1.row_count + 1 }
    | r => r

/-- The loop `while ((token = strtok(NULL, "|")) != NULL)` over the tokens left. -/
def token_loop (P : Platform) (width height total_cells : Nat) :
    List (List Char) → Locals → Flow Locals
  | [], L => .next L
  | token :: tokens, L =>
    match row_step P width height total_cells token L with
    | .next L1 => token_loop P width height total_cells tokens L1
    | r => r

/-- The call `malloc(bytes)` for an `int` array; `none` for `NULL`. -/
def malloc (P : Platform) (bytes : Nat) : Option Mem :=
  if P.malloc_ok bytes then some { size := bytes / 4, read := P.fresh, log := [] } else none

/-- The first index below `n` whose cell has the snake bit, if there is one. -/
def find_snake (P : Platform) (cells : Mem) (n : Nat) : Option Nat :=
  (List.range n).find? (fun i => cells.read i &&& P.FLAG_SNAKE != 0)

/-- The function `decompress_board_str`, called in state `g` on the string
`compressed`: the status returned and the state afterwards. -/
def decompress_board_str (P : Platform) (g : Game) (compressed : List Char) :
    Exec (board_init_status × Game) :=
  match strtok_all (c_string compressed) with
  | [] => .done (INIT_ERR_BAD_CHAR, g)
  | token :: tokens =>
    match set_dimensions token 0 0 with
    | (status, height, width) =>
      if status ≠ INIT_SUCCESS then .done (status, g)
      else
        match malloc P (size_mul (size_mul width height) 4) with
        | none => .done (INIT_ERR_BAD_CHAR, g)
        | some cells =>
          let total_cells := size_mul width height
          match token_loop P width height total_cells tokens
              { cells := cells, snake_count := 0, cell_pos := 0, row_count := 0, row_cells := 0 } with
          | .undefined u => .undefined u
          | .exit status1 => .done (status1, g)
          | .next L =>
            if L.row_count ≠ height then .done (INIT_ERR_INCORRECT_DIMENSIONS, g)
            else if L.cell_pos ≠ to_int total_cells then .done (INIT_ERR_INCORRECT_DIMENSIONS, g)
            else if L.snake_count ≠ 1 then .done (INIT_ERR_WRONG_SNAKE_NUM, g)
            else
              let snake_head : Int :=
                match find_snake P L.cells (to_int total_cells).toNat with
                | some i => (i : Int)
                | none => g.snake_head
              .done (INIT_SUCCESS,
                { cells := L.cells, width := width, height := height,
                  snake_head := snake_head, direction := P.INPUT_NONE })

/-- The symbol and digit string of every run of a row token, in the order in which
`scan_runs` meets them; the first run has symbol `cell_type` and begins with the
digits `num_str`. -/
def runs_from : List Char → Char → List Char → List (Char × List Char)
  | [], cell_type, num_str => [(cell_type, num_str)]
  | c :: rest, cell_type, num_str =>
    if isdigit c then runs_from rest cell_type (num_str ++ [c])
    else (cell_type, num_str) :: runs_from rest c []

/-- The runs of a row token: a symbol character and the digits that follow it. -/
def token_runs : List Char → List (Char × List Char)
  | [] => []
  | cell_type :: rest => runs_from rest cell_type []

/-- The count of a run: the number its digit string denotes. -/
def run_count (r : Char × List Char) : Nat := digits_value r.2 0

/-- The cell value `fill_cells` assigns for a symbol (for `'S'` and, formally, for
every character it rejects: `FLAG_SNAKE`). -/
def flag_of (P : Platform) (c : Char) : Nat :=
  if c = 'W' then P.FLAG_WALL else if c = 'E' then P.PLAIN_CELL
  else if c = 'G' then P.FLAG_GRASS else P.FLAG_SNAKE

/-- The run-length expansion of a list of runs: `count` copies of the flag of each. -/
def expand (P : Platform) : List (Char × List Char) → List Nat
  | [] => []
  | r :: rs => List.replicate (run_count r) (flag_of P r.1) ++ expand P rs

/-- The sum of the counts of a list of runs. -/
def counts_sum : List (Char × List Char) → Nat
  | [] => 0
  | r :: rs => run_count r + counts_sum rs

/-- The number of runs with symbol `'S'`. -/
def snake_runs : List (Char × List Char) → Nat
  | [] => 0
  | r :: rs => (if r.1 = 'S' then 1 else 0) + snake_runs rs

/-- A run the decoder accepts when it fits: symbol `W`, `E`, `G` or `S`, a count of
1 to 19 decimal digits, and count 1 for `S`. -/
def valid_run (r : Char × List Char) : Prop :=
  (r.1 = 'W' ∨ r.1 = 'E' ∨ r.1 = 'G' ∨ r.1 = 'S') ∧ r.2 ≠ [] ∧ r.2.length < 20 ∧
  (∀ c ∈ r.2, isdigit c = true) ∧ (r.1 = 'S' → run_count r = 1)

instance (r : Char × List Char) : Decidable (valid_run r) := by
  unfold valid_run; exact inferInstance

/-- The array after the stores `cells[pos] = v0; cells[pos + 1] = v1; ...` for the
values `vs`. -/
def blit : List Nat → Nat → Mem → Mem
  | [], _, cells => cells
  | v :: vs, pos, cells =>
    blit vs (pos + 1)
      { cells with read := Function.update cells.read pos v, log := cells.log ++ [pos] }

/-- The run loop of one token, as `run_body` applied to its runs in order. -/
def run_list (P : Platform) (width total_cells : Nat) :
    List (Char × List Char) → Locals → Flow Locals
  | [], L => .next L
  | r :: rs, L =>
    match run_body P width total_cells r.1 r.2 L with
    | .next L1 => run_list P width total_cells rs L1
    | e => e

/-- Sample constants and a sample allocator that grants every request. -/
def sample : Platform :=
  { PLAIN_CELL := 0, FLAG_SNAKE := 1, FLAG_WALL := 2, FLAG_GRASS := 8, INPUT_NONE := 0,
    malloc_ok := fun _ => true, fresh := fun _ => 77 }

/-- A state before the call. -/
def game0 : Game :=
  { cells := { size := 0, read := fun _ => 0, log := [] }, width := 0, height := 0,
    snake_head := -1, direction := 5 }

/-- What can be observed of an outcome: the status, height, width, snake head,
direction, the array length, its first `n` cells and the store log. -/
def observe (n : Nat) : Exec (board_init_status × Game) →
    Option (board_init_status × Nat × Nat × Int × Nat × Nat × List Nat × List Nat)
  | .undefined _ => none
  | .done (status, g) =>
    some (status, g.height, g.width, g.snake_head, g.direction, g.cells.size,
      (List.range n).map g.cells.read, g.cells.log)

/-- The runs of a list of row tokens, in order. -/
def rows_runs : List (List Char) → List (Char × List Char)
  | [] => []
  | token :: tokens => token_runs token ++ rows_runs tokens

/-- A row token the decoder accepts as a row of `w` cells: all its runs are valid
and their counts sum to `w`. -/
def valid_row (w : Nat) (token : List Char) : Prop :=
  (∀ r ∈ token_runs token, valid_run r) ∧ counts_sum (token_runs token) = w

instance (w : Nat) (token : List Char) : Decidable (valid_row w token) := by
  unfold valid_row; exact inferInstance

/-- The text of a row: every run as its symbol followed by its digits. -/
def render_row : List (Char × List Char) → List Char
  | [] => []
  | r :: rs => r.1 :: (r.2 ++ render_row rs)

/-- The text of the rows of an input: each token with a `'|'` before it. -/
def join_rows : List (List Char) → List Char
  | [] => []
  | token :: tokens => '|' :: (token ++ join_rows tokens)

/-- The input `B<H>x<W>|<row1>|...|<rowH>` with the digit strings `hd` and `wd` for
`H` and `W` and the rows given by their runs. -/
def render_board (hd wd : List Char) (rows : List (List (Char × List Char))) : List Char :=
  'B' :: (hd ++ 'x' :: (wd ++ join_rows (rows.map render_row)))

/-- A decimal numeral: one or more decimal digits. -/
def numeral (ds : List Char) : Prop := ds ≠ [] ∧ ∀ c ∈ ds, isdigit c = true

instance (ds : List Char) : Decidable (numeral ds) := by
  unfold numeral; exact inferInstance

/-- The runs of a list of rows, in order. -/
def all_runs : List (List (Char × List Char)) → List (Char × List Char)
  | [] => []
  | row :: rows => row ++ all_runs rows

/-- The input format of the decoder: `hd` and `wd` are decimal numerals of positive
numbers `H` and `W`; every run has a symbol in `W`, `E`, `G`, `S` and a decimal
numeral of a positive count; the counts of every row sum to `W`; there are `H`
rows; exactly one run has symbol `S`, and its count is 1. -/
def well_formed (hd wd : List Char) (rows : List (List (Char × List Char))) : Prop :=
  numeral hd ∧ numeral wd ∧ 0 < digits_value hd 0 ∧ 0 < digits_value wd 0 ∧
  (∀ row ∈ rows, ∀ r ∈ row,
    (r.1 = 'W' ∨ r.1 = 'E' ∨ r.1 = 'G' ∨ r.1 = 'S') ∧ numeral r.2 ∧ 0 < run_count r) ∧
  (∀ row ∈ rows, counts_sum row = digits_value wd 0) ∧
  rows.length = digits_value hd 0 ∧
  snake_runs (all_runs rows) = 1 ∧
  (∀ row ∈ rows, ∀ r ∈ row, r.1 = 'S' → run_count r = 1)

instance (hd wd : List Char) (rows : List (List (Char × List Char))) :
    Decidable (well_formed hd wd rows) := by
  unfold well_formed; exact inferInstance

/-- An allocator that grants nothing, with the sample constants. -/
def no_memory : Platform :=
  { PLAIN_CELL := 0, FLAG_SNAKE := 1, FLAG_WALL := 2, FLAG_GRASS := 8, INPUT_NONE := 0,
    malloc_ok := fun _ => false, fresh := fun _ => 77 }

/-- The status of an outcome, if the call returns. -/
def status_of : Exec (board_init_status × Game) → Option board_init_status
  | .undefined _ => none
  | .done (status, _) => some status

/-- The four kinds of cell of a board. -/
inductive Cell where
  | wall
  | plain
  | grass
  | snake
  deriving DecidableEq, Repr

/-- The symbol that stands for a kind of cell in the compressed format. -/
def Cell.symbol : Cell → Char
  | .wall => 'W'
  | .plain => 'E'
  | .grass => 'G'
  | .snake => 'S'

/-- The cell value of a kind of cell. -/
def Cell.flag (P : Platform) : Cell → Nat
  | .wall => P.FLAG_WALL
  | .plain => P.PLAIN_CELL
  | .grass => P.FLAG_GRASS
  | .snake => P.FLAG_SNAKE

/-- The maximal runs of equal cells of a row: each with its kind and its length. -/
def rle : List Cell → List (Cell × Nat)
  | [] => []
  | k :: ks =>
    match rle ks with
    | [] => [(k, 1)]
    | (k1, n) :: rs => if k = k1 then (k, n + 1) :: rs else (k, 1) :: (k1, n) :: rs

def digit_char : Nat → Char
  | 0 => '0'
  | 1 => '1'
  | 2 => '2'
  | 3 => '3'
  | 4 => '4'
  | 5 => '5'
  | 6 => '6'
  | 7 => '7'
  | 8 => '8'
  | _ => '9'

/-- The decimal digits of `n`, least significant first (none for `0`); `fuel` bounds
the number of digits and `n` itself is enough. -/
def lsd_digits : Nat → Nat → List Nat
  | 0, _ => []
  | fuel + 1, n => if n = 0 then [] else n % 10 :: lsd_digits fuel (n / 10)

/-- The decimal numeral of `n`, without leading zeros. -/
def decimal (n : Nat) : List Char :=
  if n = 0 then ['0'] else ((lsd_digits n n).reverse).map digit_char

/-- The runs that encode a row: one per maximal run of equal cells, with the symbol
of the kind and the decimal numeral of the length. -/
def encode_row (row : List Cell) : List (Char × List Char) :=
  (rle row).map (fun kn => (kn.1.symbol, decimal kn.2))

/-- The encoding of a board of the given width, given by its rows (the specification
speaks of it in its round-trip property; the sources have no encoder):
`B<height>x<width>` and one `'|'`-separated token per row. -/
def encode_board (width : Nat) (rows : List (List Cell)) : List Char :=
  render_board (decimal rows.length) (decimal width) (rows.map encode_row)

/-- The cells of a board in array order: row after row. -/
def flatten : List (List Cell) → List Cell
  | [] => []
  | row :: rows => row ++ flatten rows

/-- The cells a list of kinds with lengths stands for. -/
def unrle : List (Cell × Nat) → List Cell
  | [] => []
  | kn :: kns => List.replicate kn.2 kn.1 ++ unrle kns

/-- The number of cells in runs with symbol `'S'`. -/
def snake_cells : List (Char × List Char) → Nat
  | [] => 0
  | r :: rs => (if r.1 = 'S' then run_count r else 0) + snake_cells rs

/-- A board as the round-trip property takes it: positive height and width, every
row `width` cells long, exactly one snake cell. -/
def board_ok (width : Nat) (rows : List (List Cell)) : Prop :=
  0 < width ∧ 0 < rows.length ∧ (∀ row ∈ rows, row.length = width) ∧
  (flatten rows).count Cell.snake = 1

instance (width : Nat) (rows : List (List Cell)) : Decidable (board_ok width rows) := by
  unfold board_ok; exact inferInstance

/-- The text after the first `'x'` of a string (empty when there is none). -/
def after_x (s : List Char) : List Char := (s.dropWhile (fun c => c ≠ 'x')).tail

/-- A loop `for (int i = lo; i < hi; ++i) body`, with `n` turns to go from the
current `i`. -/
def for_loop (body : Int → Mem → Exec Mem) : Nat → Int → Mem → Exec Mem
  | 0, _, cells => .done cells
  | n + 1, i, cells =>
    match body i cells with
    | .undefined u => .undefined u
    | .done cells1 => for_loop body n (i + 1) cells1

/-- The statement `cells[idx] = v;`. -/
def assign (idx : Int) (v : Nat) (cells : Mem) : Exec Mem :=
  match store cells idx v with
  | none => .undefined .out_of_bounds
  | some cells1 => .done cells1

/-- Two statements `cells[idx1] = v1; cells[idx2] = v2;` in a row. -/
def assign2 (idx1 : Int) (v1 : Nat) (idx2 : Int) (v2 : Nat) (cells : Mem) : Exec Mem :=
  match assign idx1 v1 cells with
  | .undefined u => .undefined u
  | .done cells1 => assign idx2 v2 cells1

/-- The stores of `initialize_default_board` to the fresh array of `20 * 10` cells,
loop after loop. -/
def default_stores (P : Platform) (cells : Mem) : Exec Mem :=
  match for_loop (fun i => assign i P.PLAIN_CELL) (20 * 10) 0 cells with
  | .undefined u => .undefined u
  | .done c1 =>
    match for_loop (fun i => assign2 i P.FLAG_WALL (i + (20 * (10 - 1))) P.FLAG_WALL) 20 0 c1 with
    | .undefined u => .undefined u
    | .done c2 =>
      match for_loop (fun i => assign2 (i * 20) P.FLAG_WALL (i * 20 + 20 - 1) P.FLAG_WALL) 10 0 c2 with
      | .undefined u => .undefined u
      | .done c3 =>
        match for_loop (fun i => assign2 (i + 20) P.FLAG_GRASS (i + (20 * (9 - 1))) P.FLAG_GRASS)
            18 1 c3 with
        | .undefined u => .undefined u
        | .done c4 =>
          match for_loop (fun i => assign2 (i * 20 + 1) P.FLAG_GRASS (i * 20 + 19 - 1) P.FLAG_GRASS)
              8 1 c4 with
          | .undefined u => .undefined u
          | .done c5 => assign (20 * 2 + 2) P.FLAG_SNAKE c5

/-- The function `initialize_default_board`, called in state `g`: the status
returned and the state afterwards.  The code does not check its
`malloc(20 * 10 * sizeof(int))`: when `malloc` returns `NULL`, the stores go through
the null pointer, which has no cell. -/
def initialize_default_board (P : Platform) (g : Game) : Exec (board_init_status × Game) :=
  let cells : Mem :=
    match malloc P (20 * 10 * 4) with
    | some cells => cells
    | none => { size := 0, read := P.fresh, log := [] }
  match default_stores P cells with
  | .undefined u => .undefined u
  | .done cells1 => .done (INIT_SUCCESS, { g with cells := cells1, width := 20, height := 10 })

/-- The state `initialize_game` works on: the state of the decoder and the globals
`g_game_over` and `g_score`. -/
structure Session where
  game : Game
  g_game_over : Int
  g_score : Int

/-- The function `initialize_game`; `board_rep` is `none` for `NULL`.  The routine
`place_food` is not part of the sources at hand: it is a parameter, taken to change
nothing but the cell array it is handed. -/
def initialize_game (P : Platform) (place_food : Mem → Nat → Nat → Mem) (w : Session)
    (board_rep : Option (List Char)) : Exec (board_init_status × Session) :=
  let board : Exec (board_init_status × Game) :=
    match board_rep with
    | some compressed => decompress_board_str P w.game compressed
    | none =>
      match initialize_default_board P w.game with
      | .undefined u => .undefined u
      | .done (status, g1) =>
        if status ≠ INIT_SUCCESS then .done (status, g1)
        else .done (status, { g1 with snake_head := 2 * 20 + 2 })
  match board with
  | .undefined u => .undefined u
  | .done (status, g1) =>
    if status ≠ INIT_SUCCESS then .done (status, { w with game := g1 })
    else
      .done (status,
        { game := { g1 with direction := P.INPUT_NONE,
                            cells := place_food g1.cells g1.width g1.height },
          g_game_over := 0, g_score := 0 })

/-- The default board as its description has it, to compare the stores of
`initialize_default_board` with: the cell value in row `r`, column `c` is wall on the
outer ring, else snake at row 2, column 2, else grass on the next ring, else plain. -/
def default_cell (P : Platform) (r c : Nat) : Nat :=
  if r = 0 ∨ r = 9 ∨ c = 0 ∨ c = 19 then P.FLAG_WALL
  else if r = 2 ∧ c = 2 then P.FLAG_SNAKE
  else if r = 1 ∨ r = 8 ∨ c = 1 ∨ c = 18 then P.FLAG_GRASS
  else P.PLAIN_CELL

/-- What `decompress_board_str` does with the outcome of its token loop: the checks
after the loop, the search for the snake and the stores for the caller. -/
def finish (P : Platform) (g : Game) (height width : Nat) :
    Flow Locals → Exec (board_init_status × Game)
  | .undefined u => .undefined u
  | .exit status1 => .done (status1, g)
  | .next L =>
    if L.row_count ≠ height then .done (INIT_ERR_INCORRECT_DIMENSIONS, g)
    else if L.cell_pos ≠ to_int (size_mul width height) then
      .done (INIT_ERR_INCORRECT_DIMENSIONS, g)
    else if L.snake_count ≠ 1 then .done (INIT_ERR_WRONG_SNAKE_NUM, g)
    else
      let snake_head : Int :=
        match find_snake P L.cells (to_int (size_mul width height)).toNat with
        | some i => (i : Int)
        | none => g.snake_head
      .done (INIT_SUCCESS,
        { cells := L.cells, width := width, height := height,
          snake_head := snake_head, direction := P.INPUT_NONE })

/-- The part of a string where `strtol` looks for digits: what follows the leading
white space and one optional sign. -/
def number_text (s : List Char) : List Char :=
  match s.dropWhile isspace with
  | [] => []
  | c :: cs => if c = '-' ∨ c = '+' then cs else c :: cs

/-- The arguments `cell_pos` and `count` of the call of `fill_cells` in the run body
for the digits `num_str`, when the run body gets to the call; `none` when it returns
or goes wrong before. -/
def fill_call (width total_cells : Nat) (num_str : List Char) (L : Locals) : Option (Int × Int) :=
  if num_str.length = 0 then none
  else if 20 ≤ num_str.length then none
  else
    let count := atoi num_str
    if int_add L.row_cells count > to_int width then none
    else if int_add L.cell_pos count > to_int total_cells then none
    else some (L.cell_pos, count)

/-! ## Arithmetic, memory and the run loop -/

theorem to_int_le (x : Nat) : to_int x ≤ 2147483647 := by
  unfold to_int; split <;> omega

theorem to_int_small (x : Nat) (h : x < 2147483648) : to_int x = x := by
  unfold to_int
  have : x % 4294967296 = x := Nat.mod_eq_of_lt (by omega)
  rw [this]; simp [h]

theorem int_add_some (a b : Int) (h1 : -2147483648 ≤ a + b) (h2 : a + b ≤ 2147483647) :
    int_add a b = a + b := by
  unfold int_add int_of_long; omega

theorem blit_append (vs ws : List Nat) (pos : Nat) (cells : Mem) :
    blit (vs ++ ws) pos cells = blit ws (pos + vs.length) (blit vs pos cells) := by
  induction vs generalizing pos cells with
  | nil => simp [blit]
  | cons v vs ih => simp [blit, ih]; congr 1; omega

theorem blit_size (vs : List Nat) (pos : Nat) (cells : Mem) :
    (blit vs pos cells).size = cells.size := by
  induction vs generalizing pos cells with
  | nil => rfl
  | cons v vs ih => simp [blit, ih]

theorem blit_log (vs : List Nat) (pos : Nat) (cells : Mem) :
    (blit vs pos cells).log = cells.log ++ List.range' pos vs.length := by
  induction vs generalizing pos cells with
  | nil => simp [blit]
  | cons v vs ih => simp [blit, ih, List.range'_succ]

theorem blit_read (vs : List Nat) (pos : Nat) (cells : Mem) (j : Nat) :
    (blit vs pos cells).read j =
      if pos ≤ j ∧ j < pos + vs.length then vs.getD (j - pos) 0 else cells.read j := by
  induction vs generalizing pos cells with
  | nil => simp only [blit, List.length_nil]; rw [if_neg (by omega)]
  | cons v vs ih =>
    simp only [blit, ih, List.length_cons]
    by_cases h1 : pos + 1 ≤ j
    · have e : j - pos = (j - (pos + 1)) + 1 := by omega
      by_cases h2 : j < pos + 1 + vs.length
      · rw [if_pos ⟨h1, h2⟩, if_pos ⟨by omega, by omega⟩, e]; simp
      · rw [if_neg (by omega), if_neg (by omega)]
        simp [Function.update, show j ≠ pos by omega]
    · rw [if_neg (by omega)]
      by_cases h3 : j = pos
      · subst h3; simp
      · rw [if_neg (by omega)]; simp [Function.update, h3]

theorem fill_loop_eq (flag : Nat) (start_pos : Int) (n : Nat) (i : Int) (cells : Mem)
    (h0 : 0 ≤ start_pos) (hi : 0 ≤ i) (hsz : start_pos + i + n ≤ cells.size)
    (hmax : start_pos + i + n ≤ 2147483648) :
    fill_loop flag start_pos n i cells
      = .done (blit (List.replicate n flag) (start_pos + i).toNat cells) := by
  induction n generalizing i cells with
  | zero => simp [fill_loop, blit]
  | succ n ih =>
    have hadd : int_add start_pos i = start_pos + i := int_add_some _ _ (by omega) (by omega)
    have hst : store cells (start_pos + i) flag
        = some { cells with read := Function.update cells.read (start_pos + i).toNat flag,
                            log := cells.log ++ [(start_pos + i).toNat] } := by
      unfold store; rw [if_pos]; constructor <;> omega
    simp only [fill_loop, hadd, hst, List.replicate_succ, blit]
    rw [ih (i + 1) _ (by omega) (by simp; omega) (by omega)]
    congr 2
    omega


theorem isdigit_iff (c : Char) : isdigit c = true ↔ 48 ≤ c.toNat ∧ c.toNat ≤ 57 := by
  simp [isdigit]

theorem isdigit_not_space (c : Char) (h : isdigit c = true) : isspace c = false := by
  rw [isdigit_iff] at h
  simp [isspace]; omega

theorem isdigit_ne (c d : Char) (h : isdigit c = true) (hd : ¬ (48 ≤ d.toNat ∧ d.toNat ≤ 57)) :
    c ≠ d := by
  rintro rfl
  exact hd ((isdigit_iff c).1 h)

theorem atoi_digits (ds : List Char) (hne : ds ≠ []) (hd : ∀ c ∈ ds, isdigit c = true)
    (hv : digits_value ds 0 ≤ 2147483647) : atoi ds = (digits_value ds 0 : Int) := by
  obtain ⟨c, cs, rfl⟩ := List.exists_cons_of_ne_nil hne
  have hc : isdigit c = true := hd c (List.mem_cons_self _ _)
  have h1 : c ≠ '-' := isdigit_ne c _ hc (by decide)
  have h2 : c ≠ '+' := isdigit_ne c _ hc (by decide)
  unfold atoi strtol
  simp only [List.dropWhile, isdigit_not_space c hc, h1, h2, if_false]
  unfold int_of_long LONG_MAX
  rw [min_eq_left (by omega)]
  omega

theorem fill_cells_valid (P : Platform) (cells : Mem) (start_pos : Int) (r : Char × List Char)
    (snake_count : Nat) (hr : valid_run r) (h0 : 0 ≤ start_pos)
    (hsz : start_pos + run_count r ≤ cells.size) (hmax : start_pos + run_count r ≤ 2147483648)
    (hsc : r.1 = 'S' → snake_count + 1 < 18446744073709551616) :
    fill_cells P cells start_pos (run_count r) r.1 snake_count
      = .done (INIT_SUCCESS, blit (List.replicate (run_count r) (flag_of P r.1)) start_pos.toNat cells,
          snake_count + (if r.1 = 'S' then 1 else 0)) := by
  obtain ⟨hsym, -, -, -, hS⟩ := hr
  have hl := fill_loop_eq
  unfold fill_cells
  simp only [Int.toNat_ofNat]
  rcases hsym with h | h | h | h
  · rw [if_pos h, hl _ _ _ _ _ h0 (le_refl 0) (by simpa using hsz) (by simpa using hmax)]
    simp [flag_of, h]
  · have n1 : r.1 ≠ 'W' := by rw [h]; decide
    rw [if_neg n1, if_pos h, hl _ _ _ _ _ h0 (le_refl 0) (by simpa using hsz) (by simpa using hmax)]
    simp [flag_of, h]
  · have n1 : r.1 ≠ 'W' := by rw [h]; decide
    have n2 : r.1 ≠ 'E' := by rw [h]; decide
    rw [if_neg n1, if_neg n2, if_pos h, hl _ _ _ _ _ h0 (le_refl 0) (by simpa using hsz) (by simpa using hmax)]
    simp [flag_of, h]
  · have n1 : r.1 ≠ 'W' := by rw [h]; decide
    have n2 : r.1 ≠ 'E' := by rw [h]; decide
    have n3 : r.1 ≠ 'G' := by rw [h]; decide
    have h1 := hS h
    have h2 := hsc h
    rw [if_neg n1, if_neg n2, if_neg n3, if_pos h, hl _ _ _ _ _ h0 (le_refl 0) (by simpa using hsz) (by simpa using hmax)]
    simp [flag_of, h, h1]
    omega


theorem run_body_valid (P : Platform) (width total_cells : Nat) (r : Char × List Char)
    (L : Locals) (p a : Nat) (hr : valid_run r) (hp : L.cell_pos = p) (ha : L.row_cells = a)
    (hw : ((a + run_count r : Nat) : Int) ≤ to_int width)
    (ht : ((p + run_count r : Nat) : Int) ≤ to_int total_cells)
    (hsz : p + run_count r ≤ L.cells.size)
    (hsc : r.1 = 'S' → L.snake_count + 1 < 18446744073709551616) :
    run_body P width total_cells r.1 r.2 L
      = .next { cells := blit (List.replicate (run_count r) (flag_of P r.1)) p L.cells,
                snake_count := L.snake_count + (if r.1 = 'S' then 1 else 0),
                cell_pos := ((p + run_count r : Nat) : Int),
                row_count := L.row_count,
                row_cells := ((a + run_count r : Nat) : Int) } := by
  have hW := to_int_le width
  have hT := to_int_le total_cells
  have hr0 := hr
  obtain ⟨-, hne, hlen, hdig, -⟩ := hr
  have hl0 : r.2.length ≠ 0 := by simpa using hne
  have hat : atoi r.2 = (run_count r : Int) := by
    apply atoi_digits r.2 hne hdig
    have : run_count r = digits_value r.2 0 := rfl
    omega
  have h1 : int_add L.row_cells (run_count r) = ((a + run_count r : Nat) : Int) := by
    rw [ha, int_add_some _ _ (by omega) (by push_cast at hw; omega)]; simp
  have h2 : int_add L.cell_pos (run_count r) = ((p + run_count r : Nat) : Int) := by
    rw [hp, int_add_some _ _ (by omega) (by push_cast at ht; omega)]; simp
  have hf := fill_cells_valid P L.cells L.cell_pos r L.snake_count hr0 (by omega)
    (by rw [hp]; exact_mod_cast hsz) (by rw [hp]; push_cast at ht; omega) hsc
  unfold run_body
  rw [if_neg hl0, if_neg (by omega)]
  simp only [hat, h1, h2, hf]
  rw [if_neg (by omega), if_neg (by omega)]
  simp [hp]

theorem run_list_valid (P : Platform) (width total_cells : Nat) (runs : List (Char × List Char)) :
    ∀ (L : Locals) (p a : Nat), (∀ r ∈ runs, valid_run r) → L.cell_pos = p → L.row_cells = a →
    ((a + counts_sum runs : Nat) : Int) ≤ to_int width →
    ((p + counts_sum runs : Nat) : Int) ≤ to_int total_cells →
    p + counts_sum runs ≤ L.cells.size →
    L.snake_count + snake_runs runs < 18446744073709551616 →
    run_list P width total_cells runs L
      = .next { cells := blit (expand P runs) p L.cells,
                snake_count := L.snake_count + snake_runs runs,
                cell_pos := ((p + counts_sum runs : Nat) : Int),
                row_count := L.row_count,
                row_cells := ((a + counts_sum runs : Nat) : Int) } := by
  induction runs with
  | nil =>
    intro L p a _ hp ha _ _ _ _
    cases L
    simp_all [run_list, blit, expand, counts_sum, snake_runs]
  | cons r rs ih =>
    intro L p a hv hp ha hw ht hsz hsc
    simp only [counts_sum, snake_runs] at hw ht hsz hsc
    have hb := run_body_valid P width total_cells r L p a (hv r (List.mem_cons_self _ _)) hp ha
      (by push_cast at hw ⊢; omega) (by push_cast at ht ⊢; omega) (by omega) (by intro h; rw [if_pos h] at hsc; omega)
    simp only [run_list, hb]
    rw [ih _ (p + run_count r) (a + run_count r) (fun x hx => hv x (List.mem_cons_of_mem _ hx)) rfl rfl
      (by push_cast at hw ⊢; omega) (by push_cast at ht ⊢; omega)
      (by simp only [blit_size]; omega) (by simp only []; omega)]
    simp only [expand, counts_sum, snake_runs, blit_append, List.length_replicate]
    congr 2 <;> omega

theorem run_list_long (P : Platform) (width total_cells : Nat) (rest : List Char) :
    ∀ (cell_type : Char) (num_str : List Char) (L : Locals), 20 ≤ num_str.length →
    run_list P width total_cells (runs_from rest cell_type num_str) L = .undefined .num_str_bounds := by
  induction rest with
  | nil =>
    intro ct ns L h
    have h0 : ns.length ≠ 0 := by omega
    simp [runs_from, run_list, run_body, h0, h]
  | cons c rest ih =>
    intro ct ns L h
    have h0 : ns.length ≠ 0 := by omega
    unfold runs_from
    split
    · exact ih _ _ _ (by simp; omega)
    · simp [run_list, run_body, h0, h]

theorem scan_runs_eq (P : Platform) (width total_cells : Nat) (rest : List Char) :
    ∀ (cell_type : Char) (num_str : List Char) (L : Locals),
    scan_runs P width total_cells rest cell_type num_str L
      = run_list P width total_cells (runs_from rest cell_type num_str) L := by
  induction rest with
  | nil =>
    intro ct ns L
    simp only [scan_runs, runs_from, run_list]
    cases run_body P width total_cells ct ns L <;> rfl
  | cons c rest ih =>
    intro ct ns L
    unfold scan_runs runs_from
    by_cases hc : isdigit c = true
    · simp only [hc, if_true]
      by_cases hl : 20 ≤ ns.length
      · rw [if_pos hl, run_list_long _ _ _ _ _ _ _ (by simp; omega)]
      · rw [if_neg hl, ih]
    · simp only [hc, if_false, run_list]
      cases run_body P width total_cells ct ns L <;> simp [ih]

theorem row_step_eq (P : Platform) (width height total_cells : Nat) (token : List Char) (L : Locals) :
    row_step P width height total_cells token L =
      if L.row_count ≥ height then .exit INIT_ERR_INCORRECT_DIMENSIONS
      else
        match run_list P width total_cells (token_runs token) { L with row_cells := 0 } with
        | .next L1 =>
          if L1.row_cells ≠ to_int width then .exit INIT_ERR_INCORRECT_DIMENSIONS
          else .next { L1 with row_count := L1.row_count + 1 }
        | r => r := by
  unfold row_step
  cases token with
  | nil => simp [token_runs, run_list]
  | cons c rest => simp only [scan_runs_eq, token_runs]

theorem expand_append (P : Platform) (a b : List (Char × List Char)) :
    expand P (a ++ b) = expand P a ++ expand P b := by
  induction a with
  | nil => rfl
  | cons r rs ih => simp [expand, ih]

theorem counts_sum_append (a b : List (Char × List Char)) :
    counts_sum (a ++ b) = counts_sum a + counts_sum b := by
  induction a with
  | nil => simp [counts_sum]
  | cons r rs ih => simp [counts_sum, ih]; omega

theorem snake_runs_append (a b : List (Char × List Char)) :
    snake_runs (a ++ b) = snake_runs a + snake_runs b := by
  induction a with
  | nil => simp [snake_runs]
  | cons r rs ih => simp [snake_runs, ih]; omega

theorem expand_length (P : Platform) (a : List (Char × List Char)) :
    (expand P a).length = counts_sum a := by
  induction a with
  | nil => rfl
  | cons r rs ih => simp [expand, counts_sum, ih]

theorem run_list_append (P : Platform) (width total_cells : Nat) (a b : List (Char × List Char))
    (L : Locals) :
    run_list P width total_cells (a ++ b) L =
      match run_list P width total_cells a L with
      | .next L1 => run_list P width total_cells b L1
      | e => e := by
  induction a generalizing L with
  | nil => rfl
  | cons r rs ih =>
    simp only [List.cons_append, run_list]
    cases run_body P width total_cells r.1 r.2 L <;> simp [ih]

theorem token_loop_append (P : Platform) (width height total_cells : Nat)
    (a b : List (List Char)) (L : Locals) :
    token_loop P width height total_cells (a ++ b) L =
      match token_loop P width height total_cells a L with
      | .next L1 => token_loop P width height total_cells b L1
      | e => e := by
  induction a generalizing L with
  | nil => rfl
  | cons r rs ih =>
    simp only [List.cons_append, token_loop]
    cases row_step P width height total_cells r L <;> simp [ih]

theorem row_step_valid (P : Platform) (width height total_cells : Nat) (token : List Char)
    (L : Locals) (p w : Nat) (hrow : L.row_count < height) (hv : valid_row w token)
    (hp : L.cell_pos = p) (hw : to_int width = w)
    (ht : ((p + w : Nat) : Int) ≤ to_int total_cells) (hsz : p + w ≤ L.cells.size)
    (hsc : L.snake_count + snake_runs (token_runs token) < 18446744073709551616) :
    row_step P width height total_cells token L
      = .next { cells := blit (expand P (token_runs token)) p L.cells,
                snake_count := L.snake_count + snake_runs (token_runs token),
                cell_pos := ((p + w : Nat) : Int),
                row_count := L.row_count + 1,
                row_cells := (w : Int) } := by
  obtain ⟨hruns, hsum⟩ := hv
  rw [row_step_eq, if_neg (by omega)]
  rw [run_list_valid P width total_cells (token_runs token) { L with row_cells := 0 } p 0 hruns hp rfl
    (by rw [hsum, hw]; simp) (by rw [hsum]; exact ht) (by rw [hsum]; exact hsz) hsc]
  simp [hsum, hw]

theorem token_loop_valid (P : Platform) (width height total_cells : Nat) (w : Nat)
    (hw : to_int width = w) (tokens : List (List Char)) :
    ∀ (L : Locals) (p : Nat), (∀ token ∈ tokens, valid_row w token) → L.cell_pos = p →
    L.row_count + tokens.length ≤ height →
    ((p + tokens.length * w : Nat) : Int) ≤ to_int total_cells →
    p + tokens.length * w ≤ L.cells.size →
    L.snake_count + snake_runs (rows_runs tokens) < 18446744073709551616 →
    token_loop P width height total_cells tokens L
      = .next { cells := blit (expand P (rows_runs tokens)) p L.cells,
                snake_count := L.snake_count + snake_runs (rows_runs tokens),
                cell_pos := ((p + tokens.length * w : Nat) : Int),
                row_count := L.row_count + tokens.length,
                row_cells := if tokens = [] then L.row_cells else (w : Int) } := by
  induction tokens with
  | nil =>
    intro L p _ hp _ _ _ _
    cases L
    simp_all [token_loop, rows_runs, expand, blit, snake_runs]
  | cons token tokens ih =>
    intro L p hv hp hrow ht hsz hsc
    simp only [List.length_cons, rows_runs, snake_runs_append] at hrow ht hsz hsc
    have e : (tokens.length + 1) * w = w + tokens.length * w := by ring
    rw [e] at ht hsz
    have hs := row_step_valid P width height total_cells token L p w (by omega)
      (hv token (List.mem_cons_self _ _)) hp hw (by push_cast at ht ⊢; omega) (by omega) (by omega)
    simp only [token_loop, hs]
    rw [ih _ (p + w) (fun x hx => hv x (List.mem_cons_of_mem _ hx)) rfl (by simp only []; omega)
      (by push_cast at ht ⊢; omega) (by simp only [blit_size]; omega) (by simp only []; omega)]
    simp only [rows_runs, expand_append, blit_append, expand_length, snake_runs_append,
      List.length_cons, e]
    have hvr := (hv token (List.mem_cons_self _ _)).2
    rw [hvr]
    congr 2
    · omega
    · push_cast; omega
    · omega
    · simp

theorem set_dimensions_success (dim_str : List Char) (h0 w0 H W : Nat)
    (h : set_dimensions dim_str h0 w0 = (INIT_SUCCESS, H, W)) : H ≠ 0 ∧ W ≠ 0 := by
  unfold set_dimensions at h
  split at h
  · simp at h
  · split at h
    · simp at h
    · split at h
      · simp at h
      · dsimp only at h
        split at h
        · simp at h
        · rename_i hz
          simp only [Prod.mk.injEq, true_and] at h
          obtain ⟨rfl, rfl⟩ := h
          exact not_or.1 hz

theorem snake_runs_le (runs : List (Char × List Char)) (hv : ∀ r ∈ runs, valid_run r) :
    snake_runs runs ≤ counts_sum runs := by
  induction runs with
  | nil => simp [snake_runs]
  | cons r rs ih =>
    have h1 := ih (fun x hx => hv x (List.mem_cons_of_mem _ hx))
    have h2 := (hv r (List.mem_cons_self _ _)).2.2.2.2
    simp only [snake_runs, counts_sum]
    split
    · rename_i hS; have := h2 hS; omega
    · omega

theorem rows_runs_valid (w : Nat) (tokens : List (List Char))
    (hv : ∀ token ∈ tokens, valid_row w token) :
    (∀ r ∈ rows_runs tokens, valid_run r) ∧ counts_sum (rows_runs tokens) = tokens.length * w := by
  induction tokens with
  | nil => simp [rows_runs, counts_sum]
  | cons t ts ih =>
    obtain ⟨h1, h2⟩ := ih (fun x hx => hv x (List.mem_cons_of_mem _ hx))
    obtain ⟨h3, h4⟩ := hv t (List.mem_cons_self _ _)
    constructor
    · intro r hr
      simp only [rows_runs, List.mem_append] at hr
      rcases hr with hr | hr
      · exact h3 r hr
      · exact h1 r hr
    · simp only [rows_runs, counts_sum_append, h2, h4, List.length_cons]; ring

theorem size_mul_small (a b : Nat) (h : a * b < 18446744073709551616) : size_mul a b = a * b := by
  unfold size_mul; exact Nat.mod_eq_of_lt h

/-- The decoder on an input whose rows are all valid and as many as declared. -/
theorem decompress_valid_rows (P : Platform) (g : Game) (s header : List Char)
    (tokens : List (List Char)) (H W : Nat)
    (htok : strtok_all (c_string s) = header :: tokens)
    (hdim : set_dimensions header 0 0 = (INIT_SUCCESS, H, W))
    (hfit : W * H < 2147483648) (halloc : P.malloc_ok (W * H * 4) = true)
    (hrows : ∀ token ∈ tokens, valid_row W token) (hlen : tokens.length = H) :
    decompress_board_str P g s =
      if snake_runs (rows_runs tokens) = 1 then
        .done (INIT_SUCCESS,
          { cells := blit (expand P (rows_runs tokens)) 0
                      { size := W * H, read := P.fresh, log := [] },
            width := W, height := H,
            snake_head :=
              match find_snake P (blit (expand P (rows_runs tokens)) 0
                      { size := W * H, read := P.fresh, log := [] }) (W * H) with
              | some i => (i : Int)
              | none => g.snake_head,
            direction := P.INPUT_NONE })
      else .done (INIT_ERR_WRONG_SNAKE_NUM, g) := by
  obtain ⟨hH, hW⟩ := set_dimensions_success _ _ _ _ _ hdim
  have hWlt : W < 2147483648 := by
    have : W * 1 ≤ W * H := Nat.mul_le_mul_left W (by omega)
    omega
  have hm1 : size_mul W H = W * H := size_mul_small _ _ (by omega)
  have hm2 : size_mul (W * H) 4 = W * H * 4 := size_mul_small _ _ (by omega)
  have hti : to_int (W * H) = ((W * H : Nat) : Int) := to_int_small _ hfit
  obtain ⟨hvr, hcs⟩ := rows_runs_valid W tokens hrows
  have hsn := snake_runs_le _ hvr
  have hHW : tokens.length * W = W * H := by rw [hlen]; ring
  have hloop := token_loop_valid P W H (W * H) W (to_int_small W hWlt) tokens
    { cells := { size := W * H * 4 / 4, read := P.fresh, log := [] }, snake_count := 0,
      cell_pos := 0, row_count := 0, row_cells := 0 } 0 hrows rfl (by simp; omega)
    (by rw [hti]; simp [hHW]) (by simp; omega) (by simp only []; omega)
  unfold decompress_board_str
  rw [htok]
  simp only [hdim, hm1, hm2, malloc, halloc, if_true, hloop, ne_eq, not_true_eq_false, if_false,
    Nat.zero_add, hti, hlen, hHW, Int.toNat_ofNat]
  simp only [Nat.mul_div_cancel _ (show 0 < 4 by omega)]
  by_cases h1 : snake_runs (rows_runs tokens) = 1
  · simp [h1, mul_comm]
  · simp [h1, mul_comm]

theorem run_body_no_digits (P : Platform) (width total_cells : Nat) (cell_type : Char)
    (L : Locals) : run_body P width total_cells cell_type [] L = .exit INIT_ERR_BAD_CHAR := by
  simp [run_body]

/-- A run that has a count and fits reaches `fill_cells`, and ends as it does. -/
theorem run_body_fits (P : Platform) (width total_cells : Nat) (r : Char × List Char)
    (L : Locals) (p a : Nat) (hne : r.2 ≠ []) (hlen : r.2.length < 20)
    (hdig : ∀ c ∈ r.2, isdigit c = true) (hp : L.cell_pos = p) (ha : L.row_cells = a)
    (hw : ((a + run_count r : Nat) : Int) ≤ to_int width)
    (ht : ((p + run_count r : Nat) : Int) ≤ to_int total_cells) :
    run_body P width total_cells r.1 r.2 L =
      match fill_cells P L.cells L.cell_pos (run_count r) r.1 L.snake_count with
      | .undefined u => .undefined u
      | .done (status, cells, snake_count) =>
        if status ≠ INIT_SUCCESS then .exit status
        else .next { L with cells := cells, snake_count := snake_count,
                            cell_pos := ((p + run_count r : Nat) : Int),
                            row_cells := ((a + run_count r : Nat) : Int) } := by
  have hW := to_int_le width
  have hT := to_int_le total_cells
  have hl0 : r.2.length ≠ 0 := by simpa using hne
  have hat : atoi r.2 = (run_count r : Int) := by
    apply atoi_digits r.2 hne hdig
    have : run_count r = digits_value r.2 0 := rfl
    omega
  have h1 : int_add L.row_cells (run_count r) = ((a + run_count r : Nat) : Int) := by
    rw [ha, int_add_some _ _ (by omega) (by push_cast at hw; omega)]; simp
  have h2 : int_add L.cell_pos (run_count r) = ((p + run_count r : Nat) : Int) := by
    rw [hp, int_add_some _ _ (by omega) (by push_cast at ht; omega)]; simp
  unfold run_body
  rw [if_neg hl0, if_neg (by omega)]
  simp only [hat, h1, h2]
  rw [if_neg (by omega), if_neg (by omega)]

theorem fill_cells_bad_symbol (P : Platform) (cells : Mem) (start_pos count : Int) (c : Char)
    (snake_count : Nat) (h : ¬ (c = 'W' ∨ c = 'E' ∨ c = 'G' ∨ c = 'S')) :
    fill_cells P cells start_pos count c snake_count = .done (INIT_ERR_BAD_CHAR, cells, snake_count) := by
  simp only [not_or] at h
  simp [fill_cells, h.1, h.2.1, h.2.2.1, h.2.2.2]

theorem fill_cells_snake_count (P : Platform) (cells : Mem) (start_pos count : Int)
    (snake_count : Nat) (h : count ≠ 1) :
    fill_cells P cells start_pos count 'S' snake_count
      = .done (INIT_ERR_WRONG_SNAKE_NUM, cells, snake_count) := by
  simp [fill_cells, h]

/-- The decoder on an input with complete valid rows `pre`, then a row token that
begins with the valid runs `rpre` and goes on with a run on which the run body
returns `st`: the decoder returns `st` and leaves the caller state alone. -/
theorem decompress_exit_at_run (P : Platform) (g : Game) (s header : List Char)
    (pre : List (List Char)) (token : List Char) (post : List (List Char)) (H W : Nat)
    (rpre : List (Char × List Char)) (bad : Char × List Char) (rpost : List (Char × List Char))
    (st : board_init_status)
    (htok : strtok_all (c_string s) = header :: (pre ++ token :: post))
    (hdim : set_dimensions header 0 0 = (INIT_SUCCESS, H, W))
    (hfit : W * H < 2147483648) (halloc : P.malloc_ok (W * H * 4) = true)
    (hpre : ∀ t ∈ pre, valid_row W t) (hlen : pre.length < H)
    (hruns : token_runs token = rpre ++ bad :: rpost) (hv : ∀ r ∈ rpre, valid_run r)
    (hsum : counts_sum rpre ≤ W)
    (hexit : ∀ L : Locals, L.cell_pos = ((pre.length * W + counts_sum rpre : Nat) : Int) →
      L.row_cells = ((counts_sum rpre : Nat) : Int) →
      run_body P W (W * H) bad.1 bad.2 L = .exit st) :
    decompress_board_str P g s = .done (st, g) := by
  obtain ⟨hH, hW⟩ := set_dimensions_success _ _ _ _ _ hdim
  have hWlt : W < 2147483648 := by
    have : W * 1 ≤ W * H := Nat.mul_le_mul_left W (by omega)
    omega
  have hm1 : size_mul W H = W * H := size_mul_small _ _ (by omega)
  have hm2 : size_mul (W * H) 4 = W * H * 4 := size_mul_small _ _ (by omega)
  have hti : to_int (W * H) = ((W * H : Nat) : Int) := to_int_small _ hfit
  have htw : to_int W = (W : Int) := to_int_small W hWlt
  obtain ⟨hvr, hcs⟩ := rows_runs_valid W pre hpre
  have hsn := snake_runs_le _ hvr
  have hsn2 := snake_runs_le _ hv
  have hle : (pre.length + 1) * W ≤ W * H := by
    rw [Nat.mul_comm W H]; exact Nat.mul_le_mul_right W (by omega)
  have hle2 : (pre.length + 1) * W = pre.length * W + W := by ring
  have hloop := token_loop_valid P W H (W * H) W htw pre
    { cells := { size := W * H * 4 / 4, read := P.fresh, log := [] }, snake_count := 0,
      cell_pos := 0, row_count := 0, row_cells := 0 } 0 hpre rfl (by simp; omega)
    (by rw [hti]; simp only [Nat.zero_add]; exact_mod_cast (by omega : pre.length * W ≤ W * H))
    (by simp; omega) (by simp only []; omega)
  have hrun := run_list_valid P W (W * H) rpre
    { cells := blit (expand P (rows_runs pre)) 0 { size := W * H * 4 / 4, read := P.fresh, log := [] },
      snake_count := 0 + snake_runs (rows_runs pre),
      cell_pos := ((0 + pre.length * W : Nat) : Int), row_count := 0 + pre.length, row_cells := 0 }
    (0 + pre.length * W) 0 hv rfl rfl (by rw [htw]; simp; omega)
    (by rw [hti]; exact_mod_cast (by omega : 0 + pre.length * W + counts_sum rpre ≤ W * H))
    (by simp only [blit_size]; omega) (by simp only []; omega)
  unfold decompress_board_str
  rw [htok]
  simp only [hdim, hm1, hm2, malloc, halloc, if_true, ne_eq, not_true_eq_false, if_false,
    token_loop_append, hloop, token_loop, row_step_eq]
  rw [if_neg (by show ¬ (0 + pre.length ≥ H); omega)]
  simp only [hruns, run_list_append, hrun, run_list]
  rw [hexit _ (by simp only [Nat.zero_add]) (by simp only [Nat.zero_add])]

theorem runs_from_digits (ds : List Char) (hd : ∀ c ∈ ds, isdigit c = true) :
    ∀ (rest : List Char) (cell_type : Char) (num_str : List Char),
    runs_from (ds ++ rest) cell_type num_str = runs_from rest cell_type (num_str ++ ds) := by
  induction ds with
  | nil => intro rest ct ns; simp
  | cons d ds ih =>
    intro rest ct ns
    have h1 : isdigit d = true := hd d (List.mem_cons_self _ _)
    show runs_from (d :: (ds ++ rest)) ct ns = _
    rw [runs_from]
    simp only [h1, if_true]
    rw [ih (fun c hc => hd c (List.mem_cons_of_mem _ hc))]
    simp

theorem runs_from_render (rs : List (Char × List Char))
    (h : ∀ r ∈ rs, isdigit r.1 = false ∧ ∀ c ∈ r.2, isdigit c = true) :
    ∀ (cell_type : Char) (num_str : List Char),
    runs_from (render_row rs) cell_type num_str = (cell_type, num_str) :: rs := by
  induction rs with
  | nil => intro ct ns; rfl
  | cons r rs ih =>
    intro ct ns
    obtain ⟨h1, h2⟩ := h r (List.mem_cons_self _ _)
    rw [render_row, runs_from]
    simp only [h1, Bool.false_eq_true, if_false]
    rw [runs_from_digits r.2 h2, ih (fun x hx => h x (List.mem_cons_of_mem _ hx))]
    simp

theorem token_runs_render (rs : List (Char × List Char))
    (h : ∀ r ∈ rs, isdigit r.1 = false ∧ ∀ c ∈ r.2, isdigit c = true) :
    token_runs (render_row rs) = rs := by
  cases rs with
  | nil => rfl
  | cons r rs =>
    obtain ⟨-, h2⟩ := h r (List.mem_cons_self _ _)
    simp only [render_row, token_runs]
    rw [runs_from_digits r.2 h2, runs_from_render rs (fun x hx => h x (List.mem_cons_of_mem _ hx))]
    simp

theorem split_bar_ne_nil (s : List Char) : split_bar s ≠ [] := by
  cases s with
  | nil => simp [split_bar]
  | cons c cs =>
    unfold split_bar
    split
    · simp
    · split <;> simp

theorem split_bar_token (t rest : List Char) (ht : ∀ c ∈ t, c ≠ '|') :
    split_bar (t ++ '|' :: rest) = t :: split_bar rest := by
  induction t with
  | nil => simp [split_bar]
  | cons c cs ih =>
    have hc : c ≠ '|' := ht c (List.mem_cons_self _ _)
    show split_bar (c :: (cs ++ '|' :: rest)) = _
    rw [split_bar]
    simp only [hc, if_false]
    rw [ih (fun x hx => ht x (List.mem_cons_of_mem _ hx))]

theorem split_bar_last (t : List Char) (ht : ∀ c ∈ t, c ≠ '|') : split_bar t = [t] := by
  induction t with
  | nil => rfl
  | cons c cs ih =>
    have hc : c ≠ '|' := ht c (List.mem_cons_self _ _)
    simp only [split_bar, hc, if_false]
    rw [ih (fun x hx => ht x (List.mem_cons_of_mem _ hx))]

theorem split_bar_join (tokens : List (List Char)) (hb : ∀ t ∈ tokens, ∀ c ∈ t, c ≠ '|') :
    ∀ header : List Char, (∀ c ∈ header, c ≠ '|') →
    split_bar (header ++ join_rows tokens) = header :: tokens := by
  induction tokens with
  | nil => intro header hh; simp [join_rows, split_bar_last header hh]
  | cons t ts ih =>
    intro header hh
    simp only [join_rows]
    rw [split_bar_token header _ hh,
      ih (fun x hx => hb x (List.mem_cons_of_mem _ hx)) t (hb t (List.mem_cons_self _ _))]

theorem strtok_all_join (header : List Char) (tokens : List (List Char))
    (hh : ∀ c ∈ header, c ≠ '|') (hne : header ≠ [])
    (hb : ∀ t ∈ tokens, t ≠ [] ∧ ∀ c ∈ t, c ≠ '|') :
    strtok_all (header ++ join_rows tokens) = header :: tokens := by
  unfold strtok_all
  rw [split_bar_join tokens (fun t ht => (hb t ht).2) header hh]
  rw [List.filter_eq_self]
  intro t ht
  rcases List.mem_cons.1 ht with rfl | h
  · cases t with
    | nil => exact absurd rfl hne
    | cons _ _ => rfl
  · have := (hb t h).1
    cases t with
    | nil => exact absurd rfl this
    | cons _ _ => rfl

theorem c_string_self (s : List Char) (h : ∀ c ∈ s, c.toNat ≠ 0) : c_string s = s := by
  unfold c_string
  rw [List.takeWhile_eq_self_iff]
  intro c hc
  simpa using h c hc

theorem digits_value_stop (ds : List Char) (hd : ∀ c ∈ ds, isdigit c = true) (rest : List Char)
    (hrest : ∀ c ∈ rest.head?, isdigit c = false) :
    ∀ acc, digits_value (ds ++ rest) acc = digits_value ds acc := by
  induction ds with
  | nil =>
    intro acc
    cases rest with
    | nil => rfl
    | cons c cs => simp [digits_value, hrest c (by simp)]
  | cons d ds ih =>
    intro acc
    have h1 : isdigit d = true := hd d (List.mem_cons_self _ _)
    show digits_value (d :: (ds ++ rest)) acc = _
    rw [digits_value, digits_value]
    simp only [h1, if_true]
    exact ih (fun c hc => hd c (List.mem_cons_of_mem _ hc)) _

theorem strchr_x_digits (ds rest : List Char) (hd : ∀ c ∈ ds, isdigit c = true) :
    strchr_x (ds ++ 'x' :: rest) = some ('x' :: rest) := by
  induction ds with
  | nil => simp [strchr_x]
  | cons d ds ih =>
    have h1 : d ≠ 'x' := isdigit_ne d _ (hd d (List.mem_cons_self _ _)) (by decide)
    show strchr_x (d :: (ds ++ 'x' :: rest)) = _
    rw [strchr_x]
    simp only [h1, if_false]
    exact ih (fun c hc => hd c (List.mem_cons_of_mem _ hc))

theorem strtol_numeral (ds : List Char) (hn : numeral ds) (hv : digits_value ds 0 < 2147483648)
    (rest : List Char) (hrest : ∀ c ∈ rest.head?, isdigit c = false) :
    to_size_t (strtol (ds ++ rest)) = digits_value ds 0 := by
  obtain ⟨hne, hd⟩ := hn
  obtain ⟨c, cs, rfl⟩ := List.exists_cons_of_ne_nil hne
  have hc : isdigit c = true := hd c (List.mem_cons_self _ _)
  have h1 : c ≠ '-' := isdigit_ne c _ hc (by decide)
  have h2 : c ≠ '+' := isdigit_ne c _ hc (by decide)
  have h3 := digits_value_stop (c :: cs) hd rest hrest 0
  simp only [List.cons_append] at h3
  unfold strtol to_size_t
  simp only [List.cons_append, List.dropWhile, isdigit_not_space c hc, h1, h2, if_false, h3]
  have h4 : digits_value (c :: cs.append rest) 0 = digits_value (c :: cs) 0 := h3
  rw [h4]
  unfold LONG_MAX
  omega

theorem set_dimensions_numerals (hd wd : List Char) (hH : numeral hd) (hW : numeral wd)
    (hHv : digits_value hd 0 < 2147483648) (hWv : digits_value wd 0 < 2147483648)
    (hH0 : 0 < digits_value hd 0) (hW0 : 0 < digits_value wd 0) (h0 w0 : Nat) :
    set_dimensions ('B' :: (hd ++ 'x' :: wd)) h0 w0
      = (INIT_SUCCESS, digits_value hd 0, digits_value wd 0) := by
  have e1 := strtol_numeral hd hH hHv ('x' :: wd) (by simp; decide)
  have e2 := strtol_numeral wd hW hWv [] (by simp)
  simp only [List.append_nil] at e2
  unfold set_dimensions
  simp only [ne_eq, not_true_eq_false, if_false, strchr_x_digits hd wd hH.2, List.tail_cons, e1, e2]
  rw [if_neg (by omega)]

theorem valid_run_chars (r : Char × List Char) (hr : valid_run r) :
    isdigit r.1 = false ∧ (r.1.toNat ≠ 0 ∧ r.1 ≠ '|') ∧
      ∀ c ∈ r.2, isdigit c = true ∧ c.toNat ≠ 0 ∧ c ≠ '|' := by
  obtain ⟨hsym, -, -, hdig, -⟩ := hr
  refine ⟨?_, ?_, ?_⟩
  · rcases hsym with h | h | h | h <;> rw [h] <;> decide
  · rcases hsym with h | h | h | h <;> rw [h] <;> decide
  · intro c hc
    have h1 := hdig c hc
    have h2 := (isdigit_iff c).1 h1
    refine ⟨h1, by omega, isdigit_ne c _ h1 (by decide)⟩

theorem render_row_chars (row : List (Char × List Char)) (hv : ∀ r ∈ row, valid_run r) :
    ∀ c ∈ render_row row, c.toNat ≠ 0 ∧ c ≠ '|' := by
  induction row with
  | nil => intro c hc; simp [render_row] at hc
  | cons r rs ih =>
    intro c hc
    obtain ⟨-, h2, h3⟩ := valid_run_chars r (hv r (List.mem_cons_self _ _))
    simp only [render_row, List.mem_cons, List.mem_append] at hc
    rcases hc with rfl | hc | hc
    · exact h2
    · exact (h3 c hc).2
    · exact ih (fun x hx => hv x (List.mem_cons_of_mem _ hx)) c hc

theorem join_rows_chars (tokens : List (List Char))
    (h : ∀ t ∈ tokens, ∀ c ∈ t, c.toNat ≠ 0 ∧ c ≠ '|') :
    ∀ c ∈ join_rows tokens, c.toNat ≠ 0 := by
  induction tokens with
  | nil => intro c hc; simp [join_rows] at hc
  | cons t ts ih =>
    intro c hc
    simp only [join_rows, List.mem_cons, List.mem_append] at hc
    rcases hc with rfl | hc | hc
    · decide
    · exact (h t (List.mem_cons_self _ _) c hc).1
    · exact ih (fun x hx => h x (List.mem_cons_of_mem _ hx)) c hc

theorem rows_runs_render (rows : List (List (Char × List Char)))
    (hv : ∀ row ∈ rows, ∀ r ∈ row, valid_run r) :
    rows_runs (rows.map render_row) = all_runs rows := by
  induction rows with
  | nil => rfl
  | cons row rows ih =>
    simp only [List.map_cons, rows_runs, all_runs]
    rw [ih (fun x hx => hv x (List.mem_cons_of_mem _ hx)),
      token_runs_render row (fun r hr =>
        ⟨(valid_run_chars r (hv row (List.mem_cons_self _ _) r hr)).1,
         fun c hc => ((valid_run_chars r (hv row (List.mem_cons_self _ _) r hr)).2.2 c hc).1⟩)]

theorem numeral_chars (ds : List Char) (hn : numeral ds) :
    ∀ c ∈ ds, c.toNat ≠ 0 ∧ c ≠ '|' := by
  intro c hc
  have h1 := hn.2 c hc
  have h2 := (isdigit_iff c).1 h1
  exact ⟨by omega, isdigit_ne c _ h1 (by decide)⟩

/-- The tokens of a rendered board: the header and one token per row. -/
theorem strtok_all_render (hd wd : List Char) (rows : List (List (Char × List Char)))
    (hH : numeral hd) (hW : numeral wd) (hv : ∀ row ∈ rows, ∀ r ∈ row, valid_run r)
    (hne : ∀ row ∈ rows, row ≠ []) :
    strtok_all (c_string (render_board hd wd rows))
      = ('B' :: (hd ++ 'x' :: wd)) :: rows.map render_row := by
  have hrc : ∀ t ∈ rows.map render_row, ∀ c ∈ t, c.toNat ≠ 0 ∧ c ≠ '|' := by
    intro t ht
    obtain ⟨row, hrow, rfl⟩ := List.mem_map.1 ht
    exact render_row_chars row (hv row hrow)
  have hhc : ∀ c ∈ 'B' :: (hd ++ 'x' :: wd), c.toNat ≠ 0 ∧ c ≠ '|' := by
    intro c hc
    simp only [List.mem_cons, List.mem_append] at hc
    rcases hc with rfl | hc | rfl | hc
    · decide
    · exact numeral_chars hd hH c hc
    · decide
    · exact numeral_chars wd hW c hc
  have e : render_board hd wd rows = ('B' :: (hd ++ 'x' :: wd)) ++ join_rows (rows.map render_row) := by
    simp [render_board]
  rw [e, c_string_self]
  · apply strtok_all_join _ _ (fun c hc => (hhc c hc).2) (by simp)
    intro t ht
    refine ⟨?_, fun c hc => (hrc t ht c hc).2⟩
    obtain ⟨row, hrow, rfl⟩ := List.mem_map.1 ht
    have := hne row hrow
    cases row with
    | nil => exact absurd rfl this
    | cons r rs => simp [render_row]
  · intro c hc
    rcases List.mem_append.1 hc with h | h
    · exact (hhc c h).1
    · exact join_rows_chars _ hrc c h

/-- The decoder on a rendered board whose runs are valid, whose rows sum to the
declared width and are as many as the declared height, for a board of fewer than
`2^31` cells that `malloc` grants. -/
theorem decompress_render (P : Platform) (g : Game) (hd wd : List Char)
    (rows : List (List (Char × List Char)))
    (hH : numeral hd) (hW : numeral wd)
    (hH0 : 0 < digits_value hd 0) (hW0 : 0 < digits_value wd 0)
    (hv : ∀ row ∈ rows, ∀ r ∈ row, valid_run r)
    (hsum : ∀ row ∈ rows, counts_sum row = digits_value wd 0)
    (hlen : rows.length = digits_value hd 0)
    (hfit : digits_value wd 0 * digits_value hd 0 < 2147483648)
    (halloc : P.malloc_ok (digits_value wd 0 * digits_value hd 0 * 4) = true) :
    decompress_board_str P g (render_board hd wd rows) =
      if snake_runs (all_runs rows) = 1 then
        .done (INIT_SUCCESS,
          { cells := blit (expand P (all_runs rows)) 0
                      { size := digits_value wd 0 * digits_value hd 0, read := P.fresh, log := [] },
            width := digits_value wd 0, height := digits_value hd 0,
            snake_head :=
              match find_snake P (blit (expand P (all_runs rows)) 0
                      { size := digits_value wd 0 * digits_value hd 0, read := P.fresh, log := [] })
                      (digits_value wd 0 * digits_value hd 0) with
              | some i => (i : Int)
              | none => g.snake_head,
            direction := P.INPUT_NONE })
      else .done (INIT_ERR_WRONG_SNAKE_NUM, g) := by
  have hHlt : digits_value hd 0 < 2147483648 := by
    have : 1 * digits_value hd 0 ≤ digits_value wd 0 * digits_value hd 0 :=
      Nat.mul_le_mul_right _ (by omega)
    omega
  have hWlt : digits_value wd 0 < 2147483648 := by
    have : digits_value wd 0 * 1 ≤ digits_value wd 0 * digits_value hd 0 :=
      Nat.mul_le_mul_left _ (by omega)
    omega
  have hne : ∀ row ∈ rows, row ≠ [] := by
    intro row hrow h
    have := hsum row hrow
    rw [h] at this
    simp [counts_sum] at this
    omega
  have htok := strtok_all_render hd wd rows hH hW hv hne
  have hdim := set_dimensions_numerals hd wd hH hW hHlt hWlt hH0 hW0 0 0
  have hrows : ∀ token ∈ rows.map render_row, valid_row (digits_value wd 0) token := by
    intro t ht
    obtain ⟨row, hrow, rfl⟩ := List.mem_map.1 ht
    have e := token_runs_render row (fun r hr =>
        ⟨(valid_run_chars r (hv row hrow r hr)).1,
         fun c hc => ((valid_run_chars r (hv row hrow r hr)).2.2 c hc).1⟩)
    unfold valid_row
    rw [e]
    exact ⟨hv row hrow, hsum row hrow⟩
  have := decompress_valid_rows P g _ _ _ _ _ htok hdim hfit halloc hrows (by simpa using hlen)
  rw [this, rows_runs_render rows hv]

theorem digit_char_spec (d : Nat) (h : d < 10) :
    isdigit (digit_char d) = true ∧ digit_value (digit_char d) = d := by
  have : d = 0 ∨ d = 1 ∨ d = 2 ∨ d = 3 ∨ d = 4 ∨ d = 5 ∨ d = 6 ∨ d = 7 ∨ d = 8 ∨ d = 9 := by omega
  rcases this with h | h | h | h | h | h | h | h | h | h <;> subst h <;> decide

theorem digits_value_snoc (ds : List Char) (c : Char) (hd : ∀ x ∈ ds, isdigit x = true)
    (hc : isdigit c = true) :
    ∀ acc, digits_value (ds ++ [c]) acc = digits_value ds acc * 10 + digit_value c := by
  induction ds with
  | nil => intro acc; simp [digits_value, hc]
  | cons d ds ih =>
    intro acc
    have h1 : isdigit d = true := hd d (List.mem_cons_self _ _)
    show digits_value (d :: (ds ++ [c])) acc = _
    rw [digits_value, digits_value]
    simp only [h1, if_true]
    exact ih (fun x hx => hd x (List.mem_cons_of_mem _ hx)) _

theorem lsd_digits_lt (fuel : Nat) : ∀ n, ∀ d ∈ lsd_digits fuel n, d < 10 := by
  induction fuel with
  | zero => intro n d hd; simp [lsd_digits] at hd
  | succ f ih =>
    intro n d hd
    unfold lsd_digits at hd
    split at hd
    · simp at hd
    · rcases List.mem_cons.1 hd with rfl | h
      · omega
      · exact ih _ d h

theorem lsd_digits_value (fuel : Nat) : ∀ n, n ≤ fuel → Nat.ofDigits 10 (lsd_digits fuel n) = n := by
  induction fuel with
  | zero => intro n hn; simp [lsd_digits]; omega
  | succ f ih =>
    intro n hn
    unfold lsd_digits
    split
    · rename_i h0; simp [h0]
    · rw [Nat.ofDigits_cons, ih (n / 10) (by omega)]
      omega

theorem lsd_digits_length (fuel : Nat) :
    ∀ n k, n < 10 ^ k → (lsd_digits fuel n).length ≤ k := by
  induction fuel with
  | zero => intro n k _; simp [lsd_digits]
  | succ f ih =>
    intro n k hk
    unfold lsd_digits
    split
    · simp
    · cases k with
      | zero => simp at hk; omega
      | succ k =>
        have : n / 10 < 10 ^ k := by
          rw [Nat.div_lt_iff_lt_mul (by omega)]
          rw [pow_succ] at hk
          exact hk
        have := ih (n / 10) k this
        simp only [List.length_cons]
        omega

theorem digits_value_lsd (l : List Nat) (hl : ∀ d ∈ l, d < 10) :
    (∀ c ∈ (l.reverse).map digit_char, isdigit c = true) ∧
      digits_value ((l.reverse).map digit_char) 0 = Nat.ofDigits 10 l := by
  induction l with
  | nil => simp [digits_value]
  | cons d l ih =>
    obtain ⟨h1, h2⟩ := ih (fun x hx => hl x (List.mem_cons_of_mem _ hx))
    obtain ⟨h3, h4⟩ := digit_char_spec d (hl d (List.mem_cons_self _ _))
    constructor
    · intro c hc
      simp only [List.reverse_cons, List.map_append, List.map_cons, List.map_nil,
        List.mem_append, List.mem_singleton] at hc
      rcases hc with hc | rfl
      · exact h1 c hc
      · exact h3
    · simp only [List.reverse_cons, List.map_append, List.map_cons, List.map_nil]
      rw [digits_value_snoc _ _ h1 h3, h2, h4, Nat.ofDigits_cons]
      ring

/-- The decimal numeral of a positive number denotes it. -/
theorem decimal_spec (n : Nat) (hn : 0 < n) :
    numeral (decimal n) ∧ digits_value (decimal n) 0 = n ∧
      (n < 2147483648 → (decimal n).length < 20) := by
  have hne : n ≠ 0 := by omega
  obtain ⟨h1, h2⟩ := digits_value_lsd (lsd_digits n n) (lsd_digits_lt n n)
  have h3 := lsd_digits_value n n (le_refl n)
  unfold decimal
  rw [if_neg hne]
  refine ⟨⟨?_, h1⟩, by rw [h2, h3], ?_⟩
  · intro h
    rw [h] at h2
    simp [digits_value] at h2
    omega
  · intro hlt
    have := lsd_digits_length n n 10 (by omega)
    simp only [List.length_map, List.length_reverse]
    omega

theorem rle_pos (row : List Cell) : ∀ kn ∈ rle row, 0 < kn.2 := by
  induction row with
  | nil => intro kn h; simp [rle] at h
  | cons k ks ih =>
    intro kn h
    unfold rle at h
    split at h
    · simp at h; subst h; simp
    · rename_i k1 n rs heq
      rw [heq] at ih
      split at h
      · rcases List.mem_cons.1 h with rfl | h1
        · simp
        · exact ih kn (List.mem_cons_of_mem _ h1)
      · rcases List.mem_cons.1 h with rfl | h1
        · simp
        · exact ih kn h1

theorem unrle_rle (row : List Cell) : unrle (rle row) = row := by
  induction row with
  | nil => rfl
  | cons k ks ih =>
    unfold rle
    split
    · rename_i heq
      rw [heq] at ih
      simp [unrle] at ih ⊢
      exact ih
    · rename_i k1 n rs heq
      rw [heq] at ih
      split
      · rename_i hk
        subst hk
        simp only [unrle, List.replicate_succ, List.cons_append] at ih ⊢
        rw [ih]
      · simp only [unrle, List.replicate_succ, List.replicate_zero, List.cons_append,
          List.nil_append] at ih ⊢
        rw [ih]

theorem unrle_length_ge (kns : List (Cell × Nat)) : ∀ kn ∈ kns, kn.2 ≤ (unrle kns).length := by
  induction kns with
  | nil => intro kn h; simp at h
  | cons a as ih =>
    intro kn h
    simp only [unrle, List.length_append, List.length_replicate]
    rcases List.mem_cons.1 h with rfl | h1
    · omega
    · have := ih kn h1; omega

theorem flag_of_symbol (P : Platform) (k : Cell) : flag_of P k.symbol = k.flag P := by
  cases k <;> simp [flag_of, Cell.symbol, Cell.flag]

theorem symbol_cases (k : Cell) :
    k.symbol = 'W' ∨ k.symbol = 'E' ∨ k.symbol = 'G' ∨ k.symbol = 'S' := by
  cases k <;> simp [Cell.symbol]

theorem symbol_snake (k : Cell) : k.symbol = 'S' ↔ k = Cell.snake := by
  cases k <;> simp [Cell.symbol]

/-- The runs that encode kinds with positive lengths below `2^31`: they are valid up
to the snake count, and stand for the same cells. -/
theorem encoded_runs (P : Platform) (kns : List (Cell × Nat))
    (hpos : ∀ kn ∈ kns, 0 < kn.2 ∧ kn.2 < 2147483648) :
    (∀ r ∈ kns.map (fun kn => (kn.1.symbol, decimal kn.2)),
      (r.1 = 'W' ∨ r.1 = 'E' ∨ r.1 = 'G' ∨ r.1 = 'S') ∧ numeral r.2 ∧ r.2.length < 20 ∧
        0 < run_count r) ∧
    expand P (kns.map (fun kn => (kn.1.symbol, decimal kn.2))) = (unrle kns).map (Cell.flag P) ∧
    counts_sum (kns.map (fun kn => (kn.1.symbol, decimal kn.2))) = (unrle kns).length ∧
    snake_cells (kns.map (fun kn => (kn.1.symbol, decimal kn.2))) = (unrle kns).count Cell.snake := by
  induction kns with
  | nil => simp [expand, counts_sum, snake_cells, unrle]
  | cons a as ih =>
    obtain ⟨i1, i2, i3, i4⟩ := ih (fun x hx => hpos x (List.mem_cons_of_mem _ hx))
    obtain ⟨ha0, ha1⟩ := hpos a (List.mem_cons_self _ _)
    obtain ⟨d1, d2, d3⟩ := decimal_spec a.2 ha0
    have hrc : run_count (a.1.symbol, decimal a.2) = a.2 := d2
    refine ⟨?_, ?_, ?_, ?_⟩
    · intro r hr
      rcases List.mem_cons.1 hr with rfl | h
      · exact ⟨symbol_cases a.1, d1, d3 ha1, by rw [hrc]; exact ha0⟩
      · exact i1 r h
    · simp only [List.map_cons, expand, hrc, flag_of_symbol, i2, unrle, List.map_append,
        List.map_replicate]
    · simp only [List.map_cons, counts_sum, hrc, i3, unrle, List.length_append,
        List.length_replicate]
    · simp only [List.map_cons, snake_cells, hrc, i4, unrle, List.count_append,
        List.count_replicate, symbol_snake]
      by_cases h : a.1 = Cell.snake
      · simp [h]
      · have h2 : ¬ (a.1 == Cell.snake) = true := by simpa using h
        simp [h, h2]

theorem snake_cells_append (a b : List (Char × List Char)) :
    snake_cells (a ++ b) = snake_cells a + snake_cells b := by
  induction a with
  | nil => simp [snake_cells]
  | cons r rs ih => simp [snake_cells, ih]; omega

theorem snake_cells_one (runs : List (Char × List Char)) (hpos : ∀ r ∈ runs, 0 < run_count r) :
    snake_runs runs ≤ snake_cells runs ∧ (0 < snake_cells runs → 0 < snake_runs runs) ∧
      ∀ r ∈ runs, r.1 = 'S' → run_count r ≤ snake_cells runs := by
  induction runs with
  | nil => simp [snake_runs, snake_cells]
  | cons a as ih =>
    obtain ⟨i1, i2, i3⟩ := ih (fun x hx => hpos x (List.mem_cons_of_mem _ hx))
    have ha := hpos a (List.mem_cons_self _ _)
    simp only [snake_runs, snake_cells]
    by_cases h : a.1 = 'S'
    · simp only [h, if_true]
      refine ⟨by omega, by omega, ?_⟩
      intro r hr hS
      rcases List.mem_cons.1 hr with rfl | h1
      · omega
      · have := i3 r h1 hS; omega
    · simp only [h, if_false]
      refine ⟨by omega, by omega, ?_⟩
      intro r hr hS
      rcases List.mem_cons.1 hr with rfl | h1
      · exact absurd hS h
      · have := i3 r h1 hS; omega

theorem blit_range (vs : List Nat) (cells : Mem) :
    (List.range vs.length).map (blit vs 0 cells).read = vs := by
  apply List.ext_getElem
  · simp
  · intro i h1 h2
    simp only [List.getElem_map, List.getElem_range, blit_read]
    rw [if_pos ⟨by omega, by omega⟩]
    simp [List.getD_eq_getElem?_getD, List.getElem?_eq_getElem h2]

/-- The encoding of a row of `w` cells, `0 < w < 2^31`. -/
theorem encode_row_spec (P : Platform) (row : List Cell) (w : Nat) (hlen : row.length = w)
    (hw : w < 2147483648) :
    (∀ r ∈ encode_row row,
      (r.1 = 'W' ∨ r.1 = 'E' ∨ r.1 = 'G' ∨ r.1 = 'S') ∧ numeral r.2 ∧ r.2.length < 20 ∧
        0 < run_count r) ∧
    expand P (encode_row row) = row.map (Cell.flag P) ∧
    counts_sum (encode_row row) = w ∧
    snake_cells (encode_row row) = row.count Cell.snake := by
  have hpos : ∀ kn ∈ rle row, 0 < kn.2 ∧ kn.2 < 2147483648 := by
    intro kn hkn
    have h1 := unrle_length_ge (rle row) kn hkn
    rw [unrle_rle] at h1
    exact ⟨rle_pos row kn hkn, by omega⟩
  have := encoded_runs P (rle row) hpos
  rw [unrle_rle] at this
  unfold encode_row
  rw [← hlen]
  exact this

theorem encode_rows_spec (P : Platform) (rows : List (List Cell)) (w : Nat)
    (hlen : ∀ row ∈ rows, row.length = w) (hw : w < 2147483648) :
    (∀ rs ∈ rows.map encode_row, ∀ r ∈ rs,
      (r.1 = 'W' ∨ r.1 = 'E' ∨ r.1 = 'G' ∨ r.1 = 'S') ∧ numeral r.2 ∧ r.2.length < 20 ∧
        0 < run_count r) ∧
    (∀ rs ∈ rows.map encode_row, counts_sum rs = w) ∧
    expand P (all_runs (rows.map encode_row)) = (flatten rows).map (Cell.flag P) ∧
    snake_cells (all_runs (rows.map encode_row)) = (flatten rows).count Cell.snake := by
  induction rows with
  | nil => simp [all_runs, expand, snake_cells, flatten]
  | cons row rows ih =>
    obtain ⟨i1, i2, i3, i4⟩ := ih (fun x hx => hlen x (List.mem_cons_of_mem _ hx))
    obtain ⟨e1, e2, e3, e4⟩ := encode_row_spec P row w (hlen row (List.mem_cons_self _ _)) hw
    refine ⟨?_, ?_, ?_, ?_⟩
    · intro rs hrs
      rcases List.mem_cons.1 hrs with rfl | h
      · exact e1
      · exact i1 rs h
    · intro rs hrs
      rcases List.mem_cons.1 hrs with rfl | h
      · exact e3
      · exact i2 rs h
    · simp only [List.map_cons, all_runs, expand_append, e2, i3, flatten, List.map_append]
    · simp only [List.map_cons, all_runs, snake_cells_append, e4, i4, flatten, List.count_append]

theorem mem_all_runs (rows : List (List (Char × List Char))) (r : Char × List Char) :
    r ∈ all_runs rows ↔ ∃ row ∈ rows, r ∈ row := by
  induction rows with
  | nil => simp [all_runs]
  | cons a as ih => simp [all_runs, ih]

/-- The decoder on the encoding of a board of fewer than `2^31` cells whose array
`malloc` grants. -/
theorem decompress_encode (P : Platform) (g : Game) (width : Nat) (rows : List (List Cell))
    (hb : board_ok width rows) (hfit : width * rows.length < 2147483648)
    (halloc : P.malloc_ok (width * rows.length * 4) = true) :
    decompress_board_str P g (encode_board width rows) =
      .done (INIT_SUCCESS,
        { cells := blit ((flatten rows).map (Cell.flag P)) 0
                    { size := width * rows.length, read := P.fresh, log := [] },
          width := width, height := rows.length,
          snake_head :=
            match find_snake P (blit ((flatten rows).map (Cell.flag P)) 0
                    { size := width * rows.length, read := P.fresh, log := [] })
                    (width * rows.length) with
            | some i => (i : Int)
            | none => g.snake_head,
          direction := P.INPUT_NONE }) := by
  obtain ⟨hw0, hh0, hlen, hsn⟩ := hb
  have hwlt : width < 2147483648 := by
    have : width * 1 ≤ width * rows.length := Nat.mul_le_mul_left _ (by omega)
    omega
  have hhlt : rows.length < 2147483648 := by
    have : 1 * rows.length ≤ width * rows.length := Nat.mul_le_mul_right _ (by omega)
    omega
  obtain ⟨s1, s2, s3, s4⟩ := encode_rows_spec P rows width hlen hwlt
  obtain ⟨dh1, dh2, -⟩ := decimal_spec rows.length hh0
  obtain ⟨dw1, dw2, -⟩ := decimal_spec width hw0
  have hallpos : ∀ r ∈ all_runs (rows.map encode_row), 0 < run_count r := by
    intro r hr
    obtain ⟨rs, hrs, hr2⟩ := (mem_all_runs _ r).1 hr
    exact (s1 rs hrs r hr2).2.2.2
  obtain ⟨c1, c2, c3⟩ := snake_cells_one _ hallpos
  rw [s4, hsn] at c1 c2 c3
  have hone : snake_runs (all_runs (rows.map encode_row)) = 1 := by
    have := c2 (by omega); omega
  have hv : ∀ rs ∈ rows.map encode_row, ∀ r ∈ rs, valid_run r := by
    intro rs hrs r hr
    obtain ⟨h1, h2, h3, h4⟩ := s1 rs hrs r hr
    refine ⟨h1, h2.1, h3, h2.2, fun hS => ?_⟩
    have := c3 r ((mem_all_runs _ r).2 ⟨rs, hrs, hr⟩) hS
    omega
  unfold encode_board
  rw [decompress_render P g _ _ _ dh1 dw1 (by rw [dh2]; exact hh0) (by rw [dw2]; exact hw0) hv
    (by rw [dw2]; exact s2) (by rw [dh2]; simp) (by rw [dh2, dw2]; exact hfit)
    (by rw [dh2, dw2]; exact halloc), if_pos hone]
  simp only [dh2, dw2, s3]

theorem rle_plain_then_snake (n : Nat) :
    rle (List.replicate (n + 1) Cell.plain ++ [Cell.snake])
      = [(Cell.plain, n + 1), (Cell.snake, 1)] := by
  induction n with
  | zero => rfl
  | succ n ih =>
    rw [List.replicate_succ, List.cons_append, rle, ih]
    simp

theorem wide_row_encoding (n : Nat) :
    encode_row (List.replicate (n + 1) Cell.plain ++ [Cell.snake])
      = [('E', decimal (n + 1)), ('S', decimal 1)] := by
  unfold encode_row
  rw [rle_plain_then_snake]
  rfl

theorem wide_board_ok (n : Nat) :
    board_ok (n + 1) [List.replicate n Cell.plain ++ [Cell.snake]] := by
  refine ⟨by omega, by simp, ?_, ?_⟩
  · intro row hrow
    simp only [List.mem_singleton] at hrow
    subst hrow
    simp
  · simp [flatten, List.count_replicate]

theorem runs_from_all_digits (rest : List Char) :
    ∀ (cell_type : Char) (num_str : List Char), (∀ c ∈ num_str, isdigit c = true) →
    ∀ r ∈ runs_from rest cell_type num_str, ∀ c ∈ r.2, isdigit c = true := by
  induction rest with
  | nil =>
    intro ct ns hns r hr
    simp only [runs_from, List.mem_singleton] at hr
    subst hr
    exact hns
  | cons d rest ih =>
    intro ct ns hns r hr
    unfold runs_from at hr
    split at hr
    · rename_i hd
      refine ih ct (ns ++ [d]) ?_ r hr
      intro c hc
      rcases List.mem_append.1 hc with h | h
      · exact hns c h
      · simp only [List.mem_singleton] at h; subst h; exact hd
    · rcases List.mem_cons.1 hr with rfl | h
      · exact hns
      · exact ih d [] (by simp) r h

theorem token_runs_all_digits (token : List Char) :
    ∀ r ∈ token_runs token, ∀ c ∈ r.2, isdigit c = true := by
  cases token with
  | nil => intro r hr; simp [token_runs] at hr
  | cons c rest => exact runs_from_all_digits rest c [] (by simp)

theorem strchr_x_eq (s : List Char) :
    strchr_x s = if 'x' ∈ s then some (s.dropWhile (fun c => c ≠ 'x')) else none := by
  induction s with
  | nil => simp [strchr_x]
  | cons c cs ih =>
    unfold strchr_x
    by_cases h : c = 'x'
    · subst h; simp
    · have h2 : ¬ ('x' = c) := fun e => h e.symm
      simp [h, h2, ih]

theorem failure_keeps_state (P : Platform) (g g1 : Game) (s : List Char) (status : board_init_status)
    (h : decompress_board_str P g s = .done (status, g1)) (hne : status ≠ INIT_SUCCESS) :
    g1 = g := by
  unfold decompress_board_str at h
  split at h
  · simp at h; exact h.2.symm
  · split at h
    split at h
    · simp at h; exact h.2.symm
    · split at h
      · simp at h; exact h.2.symm
      · dsimp only at h
        split at h
        · simp at h
        · simp at h; exact h.2.symm
        · split at h
          · simp at h; exact h.2.symm
          · split at h
            · simp at h; exact h.2.symm
            · split at h
              · simp at h; exact h.2.symm
              · simp at h
                exact absurd h.1.symm hne

theorem set_dimensions_eq (token : List Char) (h0 w0 : Nat) :
    set_dimensions token h0 w0 =
      if token.head? ≠ some 'B' ∨ 'x' ∉ token.tail then (INIT_ERR_BAD_CHAR, h0, w0)
      else if to_size_t (strtol token.tail) = 0 ∨ to_size_t (strtol (after_x token.tail)) = 0 then
        (INIT_ERR_BAD_CHAR, to_size_t (strtol token.tail), to_size_t (strtol (after_x token.tail)))
      else (INIT_SUCCESS, to_size_t (strtol token.tail), to_size_t (strtol (after_x token.tail))) := by
  cases token with
  | nil =>
    have c1 : ([] : List Char).head? ≠ some 'B' ∨ 'x' ∉ ([] : List Char).tail := Or.inl (by simp)
    rw [if_pos c1]; rfl
  | cons c cs =>
    by_cases hc : c = 'B'
    · subst hc
      by_cases hx : 'x' ∈ cs
      · have c1 : ¬ (('B' :: cs).head? ≠ some 'B' ∨ 'x' ∉ ('B' :: cs).tail) := by simp [hx]
        rw [if_neg c1]
        simp only [set_dimensions, ne_eq, not_true_eq_false, if_false, strchr_x_eq, hx, if_true]
        rfl
      · have c1 : ('B' :: cs).head? ≠ some 'B' ∨ 'x' ∉ ('B' :: cs).tail := Or.inr (by simpa using hx)
        rw [if_pos c1]
        simp only [set_dimensions, ne_eq, not_true_eq_false, if_false, strchr_x_eq, hx]
    · have c1 : (c :: cs).head? ≠ some 'B' ∨ 'x' ∉ (c :: cs).tail := Or.inl (by simpa using hc)
      rw [if_pos c1]
      simp only [set_dimensions, ne_eq, hc, not_false_eq_true, if_true]

/-! ## What an accepted input looks like -/

theorem fill_cells_success (P : Platform) (cells cells1 : Mem) (start_pos count : Int)
    (c : Char) (sc sc1 : Nat)
    (h : fill_cells P cells start_pos count c sc = .done (INIT_SUCCESS, cells1, sc1)) :
    (c = 'W' ∨ c = 'E' ∨ c = 'G' ∨ c = 'S') ∧ (c = 'S' → count = 1) := by
  by_cases hW : c = 'W'
  · exact ⟨Or.inl hW, fun hS => by rw [hW] at hS; exact absurd hS (by decide)⟩
  by_cases hE : c = 'E'
  · exact ⟨Or.inr (Or.inl hE), fun hS => by rw [hE] at hS; exact absurd hS (by decide)⟩
  by_cases hG : c = 'G'
  · exact ⟨Or.inr (Or.inr (Or.inl hG)), fun hS => by rw [hG] at hS; exact absurd hS (by decide)⟩
  by_cases hS : c = 'S'
  · refine ⟨Or.inr (Or.inr (Or.inr hS)), fun _ => ?_⟩
    by_contra hc
    rw [hS, fill_cells_snake_count P _ _ _ _ hc] at h
    simp at h
  · rw [fill_cells_bad_symbol P _ _ _ _ _ (by simp [hW, hE, hG, hS])] at h
    simp at h

theorem strtok_all_ne_nil (s : List Char) : ∀ t ∈ strtok_all s, t ≠ [] := by
  intro t ht
  unfold strtok_all at ht
  have := (List.mem_filter.1 ht).2
  intro e
  rw [e] at this
  simp at this

set_option maxRecDepth 100000 in
theorem default_stores_list (P : Platform) :
    ∃ cells1, default_stores P { size := 20 * 10 * 4 / 4, read := P.fresh, log := [] }
        = .done cells1 ∧
      cells1.size = 200 ∧
      (List.range 200).map cells1.read
        = (List.range 200).map (fun i => default_cell P (i / 20) (i % 20)) :=
  ⟨_, rfl, rfl, by rfl⟩

theorem default_cells_list (P : Platform) (g : Game) (hm : P.malloc_ok (20 * 10 * 4) = true) :
    ∃ g1, initialize_default_board P g = .done (INIT_SUCCESS, g1) ∧
      g1.width = 20 ∧ g1.height = 10 ∧ g1.cells.size = 200 ∧
      (List.range 200).map g1.cells.read
        = (List.range 200).map (fun i => default_cell P (i / 20) (i % 20)) := by
  obtain ⟨cells1, h1, h2, h3⟩ := default_stores_list P
  refine ⟨{ g with cells := cells1, width := 20, height := 10 }, ?_, rfl, rfl, h2, h3⟩
  unfold initialize_default_board malloc
  simp only [hm, if_true, h1]

theorem default_cell_snake_bit (P : Platform) (hP : P.flags_ok) (r c : Nat) :
    default_cell P r c &&& P.FLAG_SNAKE ≠ 0 ↔ r = 2 ∧ c = 2 := by
  obtain ⟨h1, h2, h3, h4⟩ := hP
  unfold default_cell
  split
  · rename_i h
    rw [h2]
    constructor
    · intro hc; exact absurd rfl hc
    · intro hc; omega
  · split
    · rename_i h
      exact ⟨fun _ => h, fun _ => h1⟩
    · rename_i h
      split
      · rw [h4]
        exact ⟨fun hc => absurd rfl hc, fun hc => absurd hc h⟩
      · rw [h3]
        exact ⟨fun hc => absurd rfl hc, fun hc => absurd hc h⟩

theorem split_bar_append_bar (a b : List Char) :
    split_bar (a ++ '|' :: b) = split_bar a ++ split_bar b := by
  induction a with
  | nil => simp [split_bar]
  | cons c cs ih =>
    show split_bar (c :: (cs ++ '|' :: b)) = _
    rw [split_bar, split_bar]
    by_cases hc : c = '|'
    · simp only [hc, if_true, ih, List.cons_append]
    · simp only [hc, if_false, ih]
      have hne := split_bar_ne_nil cs
      cases hs : split_bar cs with
      | nil => exact absurd hs hne
      | cons t ts => simp

/-- The tokens of a string with a separator in it: the tokens before the separator,
then the tokens after it. -/
theorem strtok_all_append_bar (a b : List Char) :
    strtok_all (a ++ '|' :: b) = strtok_all a ++ strtok_all b := by
  unfold strtok_all
  rw [split_bar_append_bar, List.filter_append]

theorem strtok_all_nil : strtok_all [] = [] := by
  simp [strtok_all, split_bar]

theorem strtok_all_bars_left (n : Nat) (s : List Char) :
    strtok_all (List.replicate n '|' ++ s) = strtok_all s := by
  induction n with
  | zero => rfl
  | succ n ih =>
    have := strtok_all_append_bar [] (List.replicate n '|' ++ s)
    simp only [List.nil_append, strtok_all_nil] at this
    rw [List.replicate_succ, List.cons_append, this, ih]

theorem strtok_all_bars_right (n : Nat) (s : List Char) :
    strtok_all (s ++ List.replicate n '|') = strtok_all s := by
  induction n with
  | zero => simp
  | succ n ih =>
    rw [List.replicate_succ, strtok_all_append_bar]
    have := strtok_all_bars_left n []
    simp only [List.append_nil] at this
    rw [this, strtok_all_nil, List.append_nil]

theorem strtok_all_bars_mid (n : Nat) (a b : List Char) :
    strtok_all (a ++ '|' :: (List.replicate n '|' ++ b)) = strtok_all (a ++ '|' :: b) := by
  rw [strtok_all_append_bar, strtok_all_append_bar, strtok_all_bars_left]

theorem c_string_append (a b : List Char) :
    c_string (a ++ b) = if ∀ c ∈ a, c.toNat ≠ 0 then a ++ c_string b else c_string a := by
  induction a with
  | nil => simp
  | cons c cs ih =>
    by_cases hc : c.toNat = 0
    · have : ¬ ∀ x ∈ c :: cs, x.toNat ≠ 0 := by
        intro h; exact h c (List.mem_cons_self _ _) hc
      rw [if_neg this]
      simp [c_string, List.takeWhile, hc]
    · by_cases hcs : ∀ x ∈ cs, x.toNat ≠ 0
      · have : ∀ x ∈ c :: cs, x.toNat ≠ 0 := by
          intro x hx
          rcases List.mem_cons.1 hx with rfl | h
          · exact hc
          · exact hcs x h
        rw [if_pos this]
        rw [if_pos hcs] at ih
        unfold c_string at ih ⊢
        simp only [List.cons_append, List.takeWhile, hc, ne_eq, not_false_eq_true, decide_True]
        exact congrArg (c :: ·) ih
      · have : ¬ ∀ x ∈ c :: cs, x.toNat ≠ 0 := by
          intro h; exact hcs (fun x hx => h x (List.mem_cons_of_mem _ hx))
        rw [if_neg this]
        rw [if_neg hcs] at ih
        unfold c_string at ih ⊢
        simp only [List.cons_append, List.takeWhile, hc, ne_eq, not_false_eq_true, decide_True]
        exact congrArg (c :: ·) ih

theorem c_string_idem (s : List Char) : c_string (c_string s) = c_string s := by
  apply c_string_self
  intro c hc
  unfold c_string at hc
  have := List.mem_takeWhile_imp hc
  simpa using this

theorem replicate_bar_nonzero (n : Nat) : ∀ c ∈ List.replicate n '|', c.toNat ≠ 0 := by
  intro c hc
  rw [(List.mem_replicate.1 hc).2]
  decide

theorem c_string_replicate_bar (n : Nat) : c_string (List.replicate n '|') = List.replicate n '|' :=
  c_string_self _ (replicate_bar_nonzero n)

/-- The decoder looks at its input through the tokens only. -/
theorem decompress_congr (P : Platform) (g : Game) (s t : List Char)
    (h : strtok_all (c_string s) = strtok_all (c_string t)) :
    decompress_board_str P g s = decompress_board_str P g t := by
  unfold decompress_board_str
  rw [h]

/-- Separators added at the start, at the end or after a separator do not change
the outcome of the decoder. -/
theorem decompress_bars (P : Platform) (g : Game) (n : Nat) (s a b : List Char) :
    decompress_board_str P g (List.replicate n '|' ++ s) = decompress_board_str P g s ∧
    decompress_board_str P g (c_string s ++ List.replicate n '|') = decompress_board_str P g s ∧
    decompress_board_str P g (s ++ List.replicate n '|') = decompress_board_str P g s ∧
    decompress_board_str P g (a ++ '|' :: (List.replicate n '|' ++ b))
      = decompress_board_str P g (a ++ '|' :: b) := by
  refine ⟨?_, ?_, ?_, ?_⟩
  · apply decompress_congr
    rw [c_string_append, if_pos (replicate_bar_nonzero n), strtok_all_bars_left]
  · apply decompress_congr
    rw [c_string_append, c_string_replicate_bar]
    split
    · rw [strtok_all_bars_right]
    · rw [c_string_idem]
  · apply decompress_congr
    rw [c_string_append, c_string_replicate_bar]
    split
    · rename_i h
      rw [strtok_all_bars_right, c_string_self s h]
    · rfl
  · apply decompress_congr
    rw [c_string_append, c_string_append a]
    split
    · have e1 : c_string ('|' :: (List.replicate n '|' ++ b))
          = '|' :: (List.replicate n '|' ++ c_string b) := by
        have := c_string_append ('|' :: List.replicate n '|') b
        rw [if_pos (by
          intro c hc
          rcases List.mem_cons.1 hc with rfl | h
          · decide
          · exact replicate_bar_nonzero n c h)] at this
        simpa using this
      have e2 : c_string ('|' :: b) = '|' :: c_string b := by
        have := c_string_append ['|'] b
        rw [if_pos (by intro c hc; simp at hc; subst hc; decide)] at this
        simpa using this
      rw [e1, e2, strtok_all_bars_mid]
    · rfl

/-- The decoder after an accepted header and a granted array: the token loop from
the initial values of the locals, then the final checks. -/
theorem decompress_eq_finish (P : Platform) (g : Game) (s header : List Char)
    (tokens : List (List Char)) (H W : Nat) (cells : Mem)
    (htok : strtok_all (c_string s) = header :: tokens)
    (hdim : set_dimensions header 0 0 = (INIT_SUCCESS, H, W))
    (hm : malloc P (size_mul (size_mul W H) 4) = some cells) :
    decompress_board_str P g s =
      finish P g H W (token_loop P W H (size_mul W H) tokens
        { cells := cells, snake_count := 0, cell_pos := 0, row_count := 0, row_cells := 0 }) := by
  unfold decompress_board_str
  rw [htok]
  simp only [hdim, ne_eq, not_true_eq_false, if_false, hm]
  cases token_loop P W H (size_mul W H) tokens
    { cells := cells, snake_count := 0, cell_pos := 0, row_count := 0, row_cells := 0 } <;> rfl

/-- The decoder after complete valid rows `pre`: it goes on with the tokens left,
from the locals that the rows leave. -/
theorem decompress_after_rows (P : Platform) (g : Game) (s header : List Char)
    (pre rest : List (List Char)) (H W : Nat)
    (htok : strtok_all (c_string s) = header :: (pre ++ rest))
    (hdim : set_dimensions header 0 0 = (INIT_SUCCESS, H, W))
    (hfit : W * H < 2147483648) (halloc : P.malloc_ok (W * H * 4) = true)
    (hpre : ∀ t ∈ pre, valid_row W t) (hlen : pre.length ≤ H) :
    decompress_board_str P g s =
      finish P g H W (token_loop P W H (W * H) rest
        { cells := blit (expand P (rows_runs pre)) 0 { size := W * H, read := P.fresh, log := [] },
          snake_count := snake_runs (rows_runs pre),
          cell_pos := ((pre.length * W : Nat) : Int),
          row_count := pre.length,
          row_cells := if pre = [] then 0 else (W : Int) }) := by
  obtain ⟨hH, hW⟩ := set_dimensions_success _ _ _ _ _ hdim
  have hWlt : W < 2147483648 := by
    have : W * 1 ≤ W * H := Nat.mul_le_mul_left W (by omega)
    omega
  have hm1 : size_mul W H = W * H := size_mul_small _ _ (by omega)
  have hm2 : size_mul (W * H) 4 = W * H * 4 := size_mul_small _ _ (by omega)
  have hti : to_int (W * H) = ((W * H : Nat) : Int) := to_int_small _ hfit
  have htw : to_int W = (W : Int) := to_int_small W hWlt
  obtain ⟨hvr, hcs⟩ := rows_runs_valid W pre hpre
  have hsn := snake_runs_le _ hvr
  have hle : pre.length * W ≤ W * H := by
    rw [Nat.mul_comm W H]; exact Nat.mul_le_mul_right W hlen
  have hm : malloc P (size_mul (size_mul W H) 4)
      = some { size := W * H, read := P.fresh, log := [] } := by
    unfold malloc
    rw [hm1, hm2, halloc, if_pos rfl, Nat.mul_div_cancel _ (by omega)]
  have hloop := token_loop_valid P W H (W * H) W htw pre
    { cells := { size := W * H, read := P.fresh, log := [] }, snake_count := 0,
      cell_pos := 0, row_count := 0, row_cells := 0 } 0 hpre rfl (by simp; omega)
    (by rw [hti]; simp only [Nat.zero_add]; exact_mod_cast hle)
    (by simp; omega) (by simp only []; omega)
  rw [decompress_eq_finish P g s header _ H W _ htok hdim hm, hm1, token_loop_append, hloop]
  simp only [Nat.zero_add]

theorem finish_exit (P : Platform) (g : Game) (H W : Nat) (st : board_init_status) :
    finish P g H W (.exit st) = .done (st, g) := rfl

/-- A run with a count that takes its row beyond the width ends the decoding with
`INIT_ERR_INCORRECT_DIMENSIONS`, whatever its symbol. -/
theorem run_body_overfull (P : Platform) (width total_cells : Nat) (r : Char × List Char)
    (L : Locals) (a : Nat) (hne : r.2 ≠ []) (hlen : r.2.length < 20)
    (hdig : ∀ c ∈ r.2, isdigit c = true) (ha : L.row_cells = a)
    (hover : to_int width < ((a + run_count r : Nat) : Int))
    (hint : a + run_count r ≤ 2147483647) :
    run_body P width total_cells r.1 r.2 L = .exit INIT_ERR_INCORRECT_DIMENSIONS := by
  have hl0 : r.2.length ≠ 0 := by simpa using hne
  have hat : atoi r.2 = (run_count r : Int) := by
    apply atoi_digits r.2 hne hdig
    have : run_count r = digits_value r.2 0 := rfl
    omega
  have h1 : int_add L.row_cells (run_count r) = ((a + run_count r : Nat) : Int) := by
    rw [ha, int_add_some _ _ (by omega) (by omega)]; simp
  unfold run_body
  rw [if_neg hl0, if_neg (by omega)]
  simp only [hat, h1]
  rw [if_pos (by omega)]

theorem digits_value_ne_zero (s : List Char) (h : digits_value s 0 ≠ 0) :
    ∃ d ds, s = d :: ds ∧ isdigit d = true := by
  cases s with
  | nil => simp [digits_value] at h
  | cons d ds =>
    refine ⟨d, ds, rfl, ?_⟩
    by_contra hd
    simp [digits_value, hd] at h

/-- A value of `strtol` that converts to a non-zero `size_t` comes from a digit right
after the white space and the optional sign. -/
theorem strtol_ne_zero (s : List Char) (h : to_size_t (strtol s) ≠ 0) :
    ∃ d ds, number_text s = d :: ds ∧ isdigit d = true := by
  unfold strtol at h
  unfold number_text
  cases hs : s.dropWhile isspace with
  | nil => rw [hs] at h; simp [to_size_t] at h
  | cons c cs =>
    rw [hs] at h
    simp only at h ⊢
    by_cases h1 : c = '-'
    · rw [if_pos h1] at h
      rw [if_pos (Or.inl h1)]
      apply digits_value_ne_zero
      intro e
      rw [e] at h
      exact h (by decide)
    · rw [if_neg h1] at h
      by_cases h2 : c = '+'
      · rw [if_pos h2] at h
        rw [if_pos (Or.inr h2)]
        apply digits_value_ne_zero
        intro e
        rw [e] at h
        exact h (by decide)
      · rw [if_neg h2] at h
        rw [if_neg (by simp [h1, h2])]
        obtain ⟨d, ds, e, hd⟩ := digits_value_ne_zero (c :: cs) (by
          intro e
          rw [e] at h
          exact h (by decide))
        exact ⟨d, ds, e, hd⟩

/-- The function `fill_cells` on a range of `int` indices inside the array, by the
symbol. -/
theorem fill_cells_eq (P : Platform) (cells : Mem) (start_pos count : Int) (c : Char)
    (snake_count : Nat) (h0 : 0 ≤ start_pos) (hc : 0 ≤ count)
    (hsz : start_pos + count ≤ cells.size) (hmax : start_pos + count ≤ 2147483648) :
    fill_cells P cells start_pos count c snake_count =
      if c = 'W' then
        .done (INIT_SUCCESS, blit (List.replicate count.toNat P.FLAG_WALL) start_pos.toNat cells,
          snake_count)
      else if c = 'E' then
        .done (INIT_SUCCESS, blit (List.replicate count.toNat P.PLAIN_CELL) start_pos.toNat cells,
          snake_count)
      else if c = 'G' then
        .done (INIT_SUCCESS, blit (List.replicate count.toNat P.FLAG_GRASS) start_pos.toNat cells,
          snake_count)
      else if c = 'S' then
        if count ≠ 1 then .done (INIT_ERR_WRONG_SNAKE_NUM, cells, snake_count)
        else
          .done (INIT_SUCCESS, blit (List.replicate count.toNat P.FLAG_SNAKE) start_pos.toNat cells,
            (snake_count + 1) % 18446744073709551616)
      else .done (INIT_ERR_BAD_CHAR, cells, snake_count) := by
  have hl : ∀ flag, fill_loop flag start_pos count.toNat 0 cells
      = .done (blit (List.replicate count.toNat flag) start_pos.toNat cells) := by
    intro flag
    have h := fill_loop_eq flag start_pos count.toNat 0 cells h0 (le_refl 0)
      (by simp only [Int.toNat_of_nonneg hc]; omega) (by simp only [Int.toNat_of_nonneg hc]; omega)
    simpa using h
  unfold fill_cells
  simp only [hl]

/-- The cells after `count` stores of `flag` from `start_pos` on. -/
theorem blit_replicate_read (flag : Nat) (start_pos count : Int) (cells : Mem) (j : Nat)
    (h0 : 0 ≤ start_pos) (hc : 0 ≤ count) :
    (blit (List.replicate count.toNat flag) start_pos.toNat cells).read j =
      if start_pos ≤ j ∧ (j : Int) < start_pos + count then flag else cells.read j := by
  rw [blit_read, List.length_replicate]
  by_cases h : start_pos.toNat ≤ j ∧ j < start_pos.toNat + count.toNat
  · rw [if_pos h, if_pos (by omega)]
    rw [List.getD_eq_getElem _ _ (by rw [List.length_replicate]; omega)]
    simp
  · rw [if_neg h, if_neg (by omega)]

/-- The function `fill_cells` on a range of `int` indices inside the array returns,
and the stores it logs are to the indices of the range. -/
theorem fill_cells_done (P : Platform) (cells : Mem) (start_pos count : Int) (c : Char)
    (snake_count : Nat) (h0 : 0 ≤ start_pos) (hc : 0 ≤ count)
    (hsz : start_pos + count ≤ cells.size) (hmax : start_pos + count ≤ 2147483648) :
    ∃ st cells1 sc1, fill_cells P cells start_pos count c snake_count = .done (st, cells1, sc1) ∧
      cells1.size = cells.size ∧
      (cells1.log = cells.log ∨
        cells1.log = cells.log ++ List.range' start_pos.toNat count.toNat) := by
  rw [fill_cells_eq P cells start_pos count c snake_count h0 hc hsz hmax]
  have hb : ∀ flag, (blit (List.replicate count.toNat flag) start_pos.toNat cells).log
      = cells.log ++ List.range' start_pos.toNat count.toNat := by
    intro flag; rw [blit_log, List.length_replicate]
  repeat' split
  all_goals first
    | exact ⟨_, _, _, rfl, blit_size _ _ _, Or.inr (hb _)⟩
    | exact ⟨_, _, _, rfl, rfl, Or.inl rfl⟩

theorem run_body_exit_ne (P : Platform) (width total_cells : Nat) (cell_type : Char)
    (num_str : List Char) (L : Locals) (st : board_init_status)
    (h : run_body P width total_cells cell_type num_str L = .exit st) : st ≠ INIT_SUCCESS := by
  unfold run_body at h
  split at h
  · simp only [Flow.exit.injEq] at h; subst h; decide
  split at h
  · simp at h
  simp only at h
  split at h
  · simp only [Flow.exit.injEq] at h; subst h; decide
  split at h
  · simp only [Flow.exit.injEq] at h; subst h; decide
  cases hf : fill_cells P L.cells L.cell_pos (atoi num_str) cell_type L.snake_count with
  | undefined u => rw [hf] at h; simp at h
  | done res =>
    obtain ⟨st1, cells1, sc1⟩ := res
    rw [hf] at h
    simp only at h
    split at h
    · rename_i hst
      simp only [Flow.exit.injEq] at h
      subst h
      exact hst
    · simp at h

theorem run_list_exit_ne (P : Platform) (width total_cells : Nat) (runs : List (Char × List Char)) :
    ∀ (L : Locals) (st : board_init_status),
    run_list P width total_cells runs L = .exit st → st ≠ INIT_SUCCESS := by
  induction runs with
  | nil => intro L st h; simp [run_list] at h
  | cons r rs ih =>
    intro L st h
    simp only [run_list] at h
    cases hb : run_body P width total_cells r.1 r.2 L with
    | undefined u => rw [hb] at h; simp at h
    | exit st1 =>
      rw [hb] at h
      simp only [Flow.exit.injEq] at h
      subst h
      exact run_body_exit_ne P width total_cells _ _ L _ hb
    | next L2 => rw [hb] at h; exact ih L2 st h

theorem token_loop_exit_ne (P : Platform) (width height total_cells : Nat)
    (tokens : List (List Char)) :
    ∀ (L : Locals) (st : board_init_status),
    token_loop P width height total_cells tokens L = .exit st → st ≠ INIT_SUCCESS := by
  induction tokens with
  | nil => intro L st h; simp [token_loop] at h
  | cons t ts ih =>
    intro L st h
    simp only [token_loop] at h
    cases hs : row_step P width height total_cells t L with
    | undefined u => rw [hs] at h; simp at h
    | exit st1 =>
      rw [hs] at h
      simp only [Flow.exit.injEq] at h
      subst h
      rw [row_step_eq] at hs
      split at hs
      · simp only [Flow.exit.injEq] at hs; subst hs; decide
      · cases hr : run_list P width total_cells (token_runs t) { L with row_cells := 0 } with
        | undefined u => rw [hr] at hs; simp at hs
        | exit st2 =>
          rw [hr] at hs
          simp only [Flow.exit.injEq] at hs
          subst hs
          exact run_list_exit_ne P width total_cells _ _ _ hr
        | next L2 =>
          rw [hr] at hs
          simp only at hs
          split at hs
          · simp only [Flow.exit.injEq] at hs; subst hs; decide
          · simp at hs
    | next L2 => rw [hs] at h; exact ih L2 st h

/-- A run after which the run loop goes on: it has a count, its symbol is one of
`W`, `E`, `G`, `S`, and for `S` its count, as `atoi` reads it, is 1. -/
theorem run_body_next (P : Platform) (width total_cells : Nat) (cell_type : Char)
    (num_str : List Char) (L L1 : Locals)
    (h : run_body P width total_cells cell_type num_str L = .next L1) :
    num_str ≠ [] ∧
    (cell_type = 'W' ∨ cell_type = 'E' ∨ cell_type = 'G' ∨ cell_type = 'S') ∧
    (cell_type = 'S' → atoi num_str = 1) := by
  unfold run_body at h
  split at h
  · simp at h
  rename_i hlen0
  split at h
  · simp at h
  simp only at h
  split at h
  · simp at h
  split at h
  · simp at h
  have hne : num_str ≠ [] := by
    intro e; rw [e] at hlen0; simp at hlen0
  cases hf : fill_cells P L.cells L.cell_pos (atoi num_str) cell_type L.snake_count with
  | undefined u => rw [hf] at h; simp at h
  | done res =>
    obtain ⟨st, cells1, sc1⟩ := res
    rw [hf] at h
    simp only at h
    split at h
    · simp at h
    rename_i hst
    simp only [ne_eq, not_not] at hst
    subst hst
    exact ⟨hne, fill_cells_success P _ _ _ _ _ _ _ hf⟩

theorem run_list_next (P : Platform) (width total_cells : Nat) (runs : List (Char × List Char)) :
    ∀ (L L1 : Locals), run_list P width total_cells runs L = .next L1 →
    ∀ r ∈ runs, r.2 ≠ [] ∧ (r.1 = 'W' ∨ r.1 = 'E' ∨ r.1 = 'G' ∨ r.1 = 'S') ∧
      (r.1 = 'S' → atoi r.2 = 1) := by
  induction runs with
  | nil => intro L L1 _ r hr; simp at hr
  | cons r0 rs ih =>
    intro L L1 h r hr
    simp only [run_list] at h
    cases hb : run_body P width total_cells r0.1 r0.2 L with
    | undefined u => rw [hb] at h; simp at h
    | exit st => rw [hb] at h; simp at h
    | next L2 =>
      rw [hb] at h
      rcases List.mem_cons.1 hr with rfl | hr1
      · exact run_body_next P width total_cells _ _ L L2 hb
      · exact ih L2 L1 h r hr1

theorem token_loop_next (P : Platform) (width height total_cells : Nat)
    (tokens : List (List Char)) :
    ∀ (L L1 : Locals), token_loop P width height total_cells tokens L = .next L1 →
    ∀ t ∈ tokens, ∀ r ∈ token_runs t,
      r.2 ≠ [] ∧ (r.1 = 'W' ∨ r.1 = 'E' ∨ r.1 = 'G' ∨ r.1 = 'S') ∧
      (r.1 = 'S' → atoi r.2 = 1) := by
  induction tokens with
  | nil => intro L L1 _ t ht; simp at ht
  | cons t0 ts ih =>
    intro L L1 h t ht
    simp only [token_loop] at h
    cases hs : row_step P width height total_cells t0 L with
    | undefined u => rw [hs] at h; simp at h
    | exit st => rw [hs] at h; simp at h
    | next L2 =>
      rw [hs] at h
      rcases List.mem_cons.1 ht with rfl | ht1
      · rw [row_step_eq] at hs
        split at hs
        · simp at hs
        · cases hr : run_list P width total_cells (token_runs t) { L with row_cells := 0 } with
          | undefined u => rw [hr] at hs; simp at hs
          | exit st => rw [hr] at hs; simp at hs
          | next L3 => exact run_list_next P width total_cells _ _ L3 hr
      · exact ih L2 L1 h t ht1

/-- The runs of an accepted input: each has a count and a symbol in `W`, `E`, `G`,
`S`, and the count of an `S` run, as `atoi` reads it, is 1. -/
theorem decompress_success_runs (P : Platform) (g g1 : Game) (s : List Char)
    (h : decompress_board_str P g s = .done (INIT_SUCCESS, g1)) :
    ∀ t ∈ (strtok_all (c_string s)).tail, ∀ r ∈ token_runs t,
      r.2 ≠ [] ∧ (r.1 = 'W' ∨ r.1 = 'E' ∨ r.1 = 'G' ∨ r.1 = 'S') ∧
      (r.1 = 'S' → atoi r.2 = 1) := by
  cases htok : strtok_all (c_string s) with
  | nil => intro t ht; simp at ht
  | cons header tokens =>
    cases hdim : set_dimensions header 0 0 with
    | mk st hw =>
      obtain ⟨H, W⟩ := hw
      by_cases hst : st = INIT_SUCCESS
      · subst hst
        cases hm : malloc P (size_mul (size_mul W H) 4) with
        | none =>
          unfold decompress_board_str at h
          rw [htok] at h
          simp [hdim, hm] at h
        | some cells =>
          rw [decompress_eq_finish P g s header tokens H W cells htok hdim hm] at h
          cases hl : token_loop P W H (size_mul W H) tokens
              { cells := cells, snake_count := 0, cell_pos := 0, row_count := 0, row_cells := 0 } with
          | undefined u => rw [hl] at h; simp [finish] at h
          | exit st1 =>
            rw [hl] at h
            simp only [finish, Exec.done.injEq, Prod.mk.injEq] at h
            exact absurd h.1 (token_loop_exit_ne P W H _ tokens _ st1 hl)
          | next L1 =>
            simp only [List.tail_cons]
            exact token_loop_next P W H _ tokens _ L1 hl
      · unfold decompress_board_str at h
        rw [htok] at h
        simp [hdim, hst] at h

/-- The run body, when it gets to the call of `fill_cells`, goes on with the result
of that call. -/
theorem run_body_call (P : Platform) (width total_cells : Nat) (cell_type : Char)
    (num_str : List Char) (L : Locals) (start count : Int)
    (h : fill_call width total_cells num_str L = some (start, count)) :
    run_body P width total_cells cell_type num_str L =
      match fill_cells P L.cells start count cell_type L.snake_count with
      | .undefined u => .undefined u
      | .done (status, cells, snake_count) =>
        if status ≠ INIT_SUCCESS then .exit status
        else .next { L with cells := cells, snake_count := snake_count,
                            cell_pos := int_add L.cell_pos count,
                            row_cells := int_add L.row_cells count } := by
  unfold fill_call at h
  unfold run_body
  split at h
  · simp at h
  rename_i h1
  split at h
  · simp at h
  rename_i h2
  simp only at h
  split at h
  · simp at h
  rename_i h3
  split at h
  · simp at h
  rename_i h4
  simp only [Option.some.injEq, Prod.mk.injEq] at h
  obtain ⟨rfl, rfl⟩ := h
  rw [if_neg h1, if_neg h2]
  simp only
  rw [if_neg h3, if_neg h4]

/-- The run body, when it does not get to the call of `fill_cells`, returns an error
code or has read behind `num_str`. -/
theorem run_body_no_call (P : Platform) (width total_cells : Nat) (cell_type : Char)
    (num_str : List Char) (L : Locals)
    (h : fill_call width total_cells num_str L = none) :
    (∃ st, run_body P width total_cells cell_type num_str L = .exit st) ∨
    run_body P width total_cells cell_type num_str L = .undefined .num_str_bounds := by
  unfold fill_call at h
  unfold run_body
  split
  · exact Or.inl ⟨_, rfl⟩
  rename_i h1
  rw [if_neg h1] at h
  split
  · exact Or.inr rfl
  rename_i h2
  rw [if_neg h2] at h
  simp only at h ⊢
  split
  · exact Or.inl ⟨_, rfl⟩
  rename_i h3
  rw [if_neg h3] at h
  split
  · exact Or.inl ⟨_, rfl⟩
  rename_i h4
  rw [if_neg h4] at h
  simp at h

/-! ## The claims -/

/-- C1 at the input `B1x4611686018427387906|E1S1` (the width is `2^62 + 2`): the
row expands to two cells, `malloc` is asked for `4 * width mod 2^64 = 8` bytes,
`row_cells` and `cell_pos` are compared with `(int)width = 2` and
`(int)total_cells = 2`, and the decoder returns `INIT_SUCCESS` with height 1 and
width 4611686018427387906 and an array of two cells: for the columns from 2 on there
is neither a cell of the expansion nor a cell of the array.  The example of the
claim, `B2x2|W1E1|E1S1`, is decoded as the claim says. -/
theorem truncated_width_accepted :
    observe 2 (decompress_board_str sample game0 "B1x4611686018427387906|E1S1".toList)
      = some (INIT_SUCCESS, 1, 4611686018427387906, 1, sample.INPUT_NONE, 2,
          [sample.PLAIN_CELL, sample.FLAG_SNAKE], [0, 1]) ∧
    expand sample (rows_runs (strtok_all (c_string "B1x4611686018427387906|E1S1".toList)).tail)
      = [sample.PLAIN_CELL, sample.FLAG_SNAKE] ∧
    get_cell_pos 0 2 4611686018427387906 = 2 ∧
    observe 4 (decompress_board_str sample game0 "B2x2|W1E1|E1S1".toList)
      = some (INIT_SUCCESS, 2, 2, 3, sample.INPUT_NONE, 4,
          [sample.FLAG_WALL, sample.PLAIN_CELL, sample.PLAIN_CELL, sample.FLAG_SNAKE],
          [0, 1, 2, 3]) :=
  ⟨by rfl, by decide, by decide, by rfl⟩

/-- C2 (as amended): every well-formed input whose counts have fewer than 20 digits,
for a board of fewer than `2^31` cells whose array `malloc` grants, is decoded with
`INIT_SUCCESS`. -/
theorem well_formed_success (P : Platform) (g : Game) (hd wd : List Char)
    (rows : List (List (Char × List Char)))
    (hwf : well_formed hd wd rows)
    (hshort : ∀ row ∈ rows, ∀ r ∈ row, r.2.length < 20)
    (hfit : digits_value wd 0 * digits_value hd 0 < 2147483648)
    (halloc : P.malloc_ok (digits_value wd 0 * digits_value hd 0 * 4) = true) :
    status_of (decompress_board_str P g (render_board hd wd rows)) = some INIT_SUCCESS := by
  obtain ⟨hH, hW, hH0, hW0, hruns, hsum, hlen, hone, hS⟩ := hwf
  have hv : ∀ row ∈ rows, ∀ r ∈ row, valid_run r := by
    intro row hrow r hr
    obtain ⟨h1, h2, -⟩ := hruns row hrow r hr
    exact ⟨h1, h2.1, hshort row hrow r hr, h2.2, hS row hrow r hr⟩
  rw [decompress_render P g hd wd rows hH hW hH0 hW0 hv hsum hlen hfit halloc, if_pos hone]
  rfl

/-- C2, an instance: `B2x2|W1E1|E1S1` is well formed and decoded with `INIT_SUCCESS`. -/
theorem well_formed_success_witness :
    render_board ['2'] ['2'] [[('W', ['1']), ('E', ['1'])], [('E', ['1']), ('S', ['1'])]]
        = "B2x2|W1E1|E1S1".toList ∧
      status_of (decompress_board_str sample game0
        (render_board ['2'] ['2'] [[('W', ['1']), ('E', ['1'])], [('E', ['1']), ('S', ['1'])]]))
        = some INIT_SUCCESS :=
  ⟨by decide, well_formed_success sample game0 ['2'] ['2']
      [[('W', ['1']), ('E', ['1'])], [('E', ['1']), ('S', ['1'])]] (by decide) (by decide)
      (by decide) (by rfl)⟩

/-- C2 as stated fails: a well-formed input is refused when `malloc` returns `NULL`
(`INIT_ERR_BAD_CHAR`), when the declared width does not fit in `int`
(`B1x2147483648|E2147483647S1`: `INIT_ERR_INCORRECT_DIMENSIONS`, with an allocator
that grants every request), and when a count has 20 digits (they fill `num_str` and
leave no terminator for `atoi`: the behaviour is undefined). -/
theorem well_formed_refused :
    (well_formed ['1'] ['1'] [[('S', ['1'])]] ∧
      render_board ['1'] ['1'] [[('S', ['1'])]] = "B1x1|S1".toList ∧
      status_of (decompress_board_str no_memory game0 "B1x1|S1".toList)
        = some INIT_ERR_BAD_CHAR) ∧
    (well_formed "1".toList "2147483648".toList
        [[('E', "2147483647".toList), ('S', ['1'])]] ∧
      render_board "1".toList "2147483648".toList [[('E', "2147483647".toList), ('S', ['1'])]]
        = "B1x2147483648|E2147483647S1".toList ∧
      status_of (decompress_board_str sample game0 "B1x2147483648|E2147483647S1".toList)
        = some INIT_ERR_INCORRECT_DIMENSIONS) ∧
    (well_formed ['1'] ['1'] [[('S', "00000000000000000001".toList)]] ∧
      render_board ['1'] ['1'] [[('S', "00000000000000000001".toList)]]
        = "B1x1|S00000000000000000001".toList ∧
      status_of (decompress_board_str sample game0 "B1x1|S00000000000000000001".toList)
        = none) := by
  refine ⟨⟨by decide, by decide, by rfl⟩, ⟨by decide, by decide, by rfl⟩,
    ⟨by decide, by decide, by rfl⟩⟩

/-- C3 at the input `B1x4611686018427387906|E1S1`: the decoder returns `INIT_SUCCESS`
with snake head 1 and an array of two cells, so the indices from 2 up to
`height * width` are not cells of the array.  At the input `B1x4294967298|E1S1`,
when `malloc` grants the array, all `height * width` cells exist but only cells 0 and
1 were stored to; with an allocator that leaves 77 in fresh cells the cells 1, 2 and
3 all have the snake bit. -/
theorem truncated_width_snake_cells :
    (∃ g1, decompress_board_str sample game0 "B1x4611686018427387906|E1S1".toList
        = .done (INIT_SUCCESS, g1) ∧
      g1.snake_head = 1 ∧ g1.cells.size = 2 ∧ g1.height * g1.width = 4611686018427387906) ∧
    (∃ g1, decompress_board_str sample game0 "B1x4294967298|E1S1".toList = .done (INIT_SUCCESS, g1) ∧
      g1.snake_head = 1 ∧ g1.cells.size = g1.height * g1.width ∧ 3 < g1.height * g1.width ∧
      g1.cells.log = [0, 1] ∧
      g1.cells.read 1 &&& sample.FLAG_SNAKE ≠ 0 ∧
      g1.cells.read 2 &&& sample.FLAG_SNAKE ≠ 0 ∧
      g1.cells.read 3 &&& sample.FLAG_SNAKE ≠ 0) :=
  ⟨⟨_, rfl, by decide, by decide, by decide⟩,
    ⟨_, rfl, by decide, by decide, by decide, by decide, by decide, by decide, by decide⟩⟩

/-- C4 at the input `B1x4611686018427387906|E1S1`: the decoder returns `INIT_SUCCESS`
with height 1 and width 4611686018427387906, while the counts of the one row token
sum to 2, and the array has two cells, not `height * width`. -/
theorem truncated_width_counts :
    (∃ g1, decompress_board_str sample game0 "B1x4611686018427387906|E1S1".toList
        = .done (INIT_SUCCESS, g1) ∧
      g1.height = 1 ∧ g1.width = 4611686018427387906 ∧ g1.cells.size = 2 ∧
      g1.cells.log = [0, 1]) ∧
    (strtok_all (c_string "B1x4611686018427387906|E1S1".toList)).tail = ["E1S1".toList] ∧
    counts_sum (token_runs "E1S1".toList) = 2 :=
  ⟨⟨_, rfl, by decide, by decide, by decide, by decide⟩, by decide, by decide⟩

/-- C5 (as amended): the encoding of a board of fewer than `2^31` cells whose array
`malloc` grants is decoded with `INIT_SUCCESS`, the height and width of the board,
and an array of `height * width` cells that holds the board. -/
theorem round_trip (P : Platform) (g : Game) (width : Nat) (rows : List (List Cell))
    (hb : board_ok width rows) (hfit : width * rows.length < 2147483648)
    (halloc : P.malloc_ok (width * rows.length * 4) = true) :
    ∃ g1, decompress_board_str P g (encode_board width rows) = .done (INIT_SUCCESS, g1) ∧
      g1.height = rows.length ∧ g1.width = width ∧ g1.cells.size = rows.length * width ∧
      (List.range (rows.length * width)).map g1.cells.read = (flatten rows).map (Cell.flag P) := by
  have hlen : (flatten rows).length = rows.length * width := by
    have h := hb.2.2.1
    clear hb hfit halloc
    induction rows with
    | nil => simp [flatten]
    | cons row rows ih =>
      simp only [flatten, List.length_append, List.length_cons,
        ih (fun x hx => h x (List.mem_cons_of_mem _ hx)), h row (List.mem_cons_self _ _)]
      ring
  refine ⟨_, decompress_encode P g width rows hb hfit halloc, rfl, rfl, ?_, ?_⟩
  · simp only [blit_size]; ring
  · have := blit_range ((flatten rows).map (Cell.flag P))
      { size := width * rows.length, read := P.fresh, log := [] }
    rw [List.length_map, hlen] at this
    exact this

/-- C5, an instance: the board with rows wall, plain and plain, snake is encoded as
`B2x2|W1E1|E1S1` and decoded to itself. -/
theorem round_trip_witness :
    encode_board 2 [[Cell.wall, Cell.plain], [Cell.plain, Cell.snake]] = "B2x2|W1E1|E1S1".toList ∧
    ∃ g1, decompress_board_str sample game0
        (encode_board 2 [[Cell.wall, Cell.plain], [Cell.plain, Cell.snake]])
          = .done (INIT_SUCCESS, g1) ∧
      g1.height = 2 ∧ g1.width = 2 ∧ g1.cells.size = 2 * 2 ∧
      (List.range (2 * 2)).map g1.cells.read
        = (flatten [[Cell.wall, Cell.plain], [Cell.plain, Cell.snake]]).map (Cell.flag sample) :=
  ⟨by decide, round_trip sample game0 2 [[Cell.wall, Cell.plain], [Cell.plain, Cell.snake]]
    (by decide) (by decide) (by rfl)⟩

/-- C5 as stated fails: the encoding of the one-cell board is refused with
`INIT_ERR_BAD_CHAR` when `malloc` returns `NULL`, and the encoding of the board of
one row of `2^31` cells (`2^31 - 1` plain cells and the snake) is refused with
`INIT_ERR_INCORRECT_DIMENSIONS` although `malloc` grants its array. -/
theorem round_trip_refused :
    (board_ok 1 [[Cell.snake]] ∧
      status_of (decompress_board_str no_memory game0 (encode_board 1 [[Cell.snake]]))
        = some INIT_ERR_BAD_CHAR) ∧
    (board_ok 2147483648 [List.replicate 2147483647 Cell.plain ++ [Cell.snake]] ∧
      status_of (decompress_board_str sample game0
        (encode_board 2147483648 [List.replicate 2147483647 Cell.plain ++ [Cell.snake]]))
        = some INIT_ERR_INCORRECT_DIMENSIONS) := by
  refine ⟨⟨by decide, by rfl⟩, ⟨wide_board_ok 2147483647, ?_⟩⟩
  have h : encode_row (List.replicate 2147483647 Cell.plain ++ [Cell.snake])
      = [('E', decimal 2147483647), ('S', decimal 1)] := wide_row_encoding 2147483646
  have e : encode_board 2147483648 [List.replicate 2147483647 Cell.plain ++ [Cell.snake]]
      = "B1x2147483648|E2147483647S1".toList := by
    unfold encode_board
    simp only [List.map_cons, List.map_nil, List.length_singleton]
    rw [h]
    decide
  rw [e]
  rfl

/-- C6: when `decompress_board_str` returns a code other than `INIT_SUCCESS`, the
state after the call (the caller's array, width and height, and the globals
`snake_head` and `direction`) is the state before it. -/
theorem all_or_nothing (P : Platform) (g : Game) (s : List Char) (status : board_init_status)
    (h : status_of (decompress_board_str P g s) = some status) (hne : status ≠ INIT_SUCCESS) :
    decompress_board_str P g s = .done (status, g) := by
  cases hr : decompress_board_str P g s with
  | undefined u => rw [hr] at h; simp [status_of] at h
  | done a =>
    obtain ⟨st, g1⟩ := a
    rw [hr] at h
    simp only [status_of, Option.some.injEq] at h
    subst h
    rw [failure_keeps_state P g g1 s st hr hne]

/-- C6, an instance: `B2x2|W1E1|E1X1` is refused and the state is left as it was. -/
theorem all_or_nothing_witness :
    decompress_board_str sample game0 "B2x2|W1E1|E1X1".toList = .done (INIT_ERR_BAD_CHAR, game0) :=
  all_or_nothing sample game0 "B2x2|W1E1|E1X1".toList INIT_ERR_BAD_CHAR (by rfl) (by decide)

/-- C7: `set_dimensions` returns `INIT_ERR_BAD_CHAR` exactly when the token does not
start with `'B'`, or has no `'x'` after the `'B'`, or the number `strtol` reads after
the `'B'` or the one it reads after the first `'x'` is zero, and otherwise returns
`INIT_SUCCESS` with these two numbers as height and width; and an input without a
token, or whose first token `set_dimensions` refuses, is refused with
`INIT_ERR_BAD_CHAR` whatever follows. -/
theorem header_bad_char (P : Platform) (g : Game) (s token : List Char) (h0 w0 : Nat) :
    ((set_dimensions token h0 w0).1 = INIT_ERR_BAD_CHAR ↔
      (token.head? ≠ some 'B' ∨ 'x' ∉ token.tail ∨ to_size_t (strtol token.tail) = 0 ∨
        to_size_t (strtol (after_x token.tail)) = 0)) ∧
    ((set_dimensions token h0 w0).1 ≠ INIT_ERR_BAD_CHAR →
      set_dimensions token h0 w0
        = (INIT_SUCCESS, to_size_t (strtol token.tail), to_size_t (strtol (after_x token.tail)))) ∧
    (strtok_all (c_string s) = [] → decompress_board_str P g s = .done (INIT_ERR_BAD_CHAR, g)) ∧
    (∀ rest, strtok_all (c_string s) = token :: rest →
      (set_dimensions token 0 0).1 = INIT_ERR_BAD_CHAR →
      decompress_board_str P g s = .done (INIT_ERR_BAD_CHAR, g)) := by
  refine ⟨?_, ?_, ?_, ?_⟩
  · rw [set_dimensions_eq]
    by_cases h1 : token.head? ≠ some 'B' ∨ 'x' ∉ token.tail
    · rw [if_pos h1]
      rcases h1 with h | h
      · exact ⟨fun _ => Or.inl h, fun _ => rfl⟩
      · exact ⟨fun _ => Or.inr (Or.inl h), fun _ => rfl⟩
    · rw [if_neg h1]
      by_cases h2 : to_size_t (strtol token.tail) = 0 ∨ to_size_t (strtol (after_x token.tail)) = 0
      · rw [if_pos h2]
        rcases h2 with h | h
        · exact ⟨fun _ => Or.inr (Or.inr (Or.inl h)), fun _ => rfl⟩
        · exact ⟨fun _ => Or.inr (Or.inr (Or.inr h)), fun _ => rfl⟩
      · rw [if_neg h2]
        constructor
        · intro h; exact absurd h (by simp)
        · intro h
          rcases h with h | h | h | h
          · exact absurd (Or.inl h) h1
          · exact absurd (Or.inr h) h1
          · exact absurd (Or.inl h) h2
          · exact absurd (Or.inr h) h2
  · rw [set_dimensions_eq]
    intro hne
    by_cases h1 : token.head? ≠ some 'B' ∨ 'x' ∉ token.tail
    · rw [if_pos h1] at hne; exact absurd rfl hne
    · rw [if_neg h1] at hne ⊢
      by_cases h2 : to_size_t (strtol token.tail) = 0 ∨ to_size_t (strtol (after_x token.tail)) = 0
      · rw [if_pos h2] at hne; exact absurd rfl hne
      · rw [if_neg h2]
  · intro h
    unfold decompress_board_str
    rw [h]
  · intro rest h hbad
    unfold decompress_board_str
    rw [h]
    simp [hbad]

/-- C7, an instance: the header `Bx5` has no height, and `Bx5|W1` is refused with
`INIT_ERR_BAD_CHAR`. -/
theorem header_bad_char_witness :
    (set_dimensions "Bx5".toList 0 0).1 = INIT_ERR_BAD_CHAR ∧
      decompress_board_str sample game0 "Bx5|W1".toList = .done (INIT_ERR_BAD_CHAR, game0) :=
  ⟨by decide, (header_bad_char sample game0 "Bx5|W1".toList "Bx5".toList 0 0).2.2.2
    ["W1".toList] (by decide) (by decide)⟩

/-- C8 (as amended): for a valid header of a board of fewer than `2^31` cells whose
array `malloc` grants, after complete valid rows (fewer than the height) and after
valid runs of its row, a run whose symbol is not one of `W`, `E`, `G`, `S` and which
has a count of 1 to 19 digits that, with the counts before it, does not exceed the
width is refused with `INIT_ERR_BAD_CHAR`. -/
theorem unknown_symbol_refused (P : Platform) (g : Game) (s header : List Char)
    (pre : List (List Char)) (token : List Char) (post : List (List Char)) (H W : Nat)
    (rpre : List (Char × List Char)) (bad : Char × List Char) (rpost : List (Char × List Char))
    (htok : strtok_all (c_string s) = header :: (pre ++ token :: post))
    (hdim : set_dimensions header 0 0 = (INIT_SUCCESS, H, W))
    (hfit : W * H < 2147483648) (halloc : P.malloc_ok (W * H * 4) = true)
    (hpre : ∀ t ∈ pre, valid_row W t) (hlen : pre.length < H)
    (hruns : token_runs token = rpre ++ bad :: rpost) (hv : ∀ r ∈ rpre, valid_run r)
    (hbad : ¬ (bad.1 = 'W' ∨ bad.1 = 'E' ∨ bad.1 = 'G' ∨ bad.1 = 'S'))
    (hcount : bad.2 ≠ [] ∧ bad.2.length < 20)
    (hroom : counts_sum rpre + run_count bad ≤ W) :
    decompress_board_str P g s = .done (INIT_ERR_BAD_CHAR, g) := by
  obtain ⟨hH, hW⟩ := set_dimensions_success _ _ _ _ _ hdim
  have hWlt : W < 2147483648 := by
    have : W * 1 ≤ W * H := Nat.mul_le_mul_left W (by omega)
    omega
  have hle : (pre.length + 1) * W ≤ W * H := by
    rw [Nat.mul_comm W H]; exact Nat.mul_le_mul_right W (by omega)
  have hle2 : (pre.length + 1) * W = pre.length * W + W := by ring
  have hdig : ∀ c ∈ bad.2, isdigit c = true :=
    token_runs_all_digits token bad (by rw [hruns]; simp)
  apply decompress_exit_at_run P g s header pre token post H W rpre bad rpost _ htok hdim hfit
    halloc hpre hlen hruns hv (by omega)
  intro L hp ha
  rw [run_body_fits P W (W * H) bad L _ _ hcount.1 hcount.2 hdig hp ha
    (by rw [to_int_small W hWlt]; exact_mod_cast hroom)
    (by rw [to_int_small _ hfit]; exact_mod_cast (by omega :
      pre.length * W + counts_sum rpre + run_count bad ≤ W * H)),
    fill_cells_bad_symbol P _ _ _ _ _ hbad]
  simp

/-- C8, an instance: `B2x2|W1E1|E1X1` is refused with `INIT_ERR_BAD_CHAR`. -/
theorem unknown_symbol_refused_witness :
    decompress_board_str sample game0 "B2x2|W1E1|E1X1".toList = .done (INIT_ERR_BAD_CHAR, game0) :=
  unknown_symbol_refused sample game0 "B2x2|W1E1|E1X1".toList "B2x2".toList ["W1E1".toList]
    "E1X1".toList [] 2 2 [('E', ['1'])] ('X', ['1']) [] (by decide) (by decide) (by decide)
    (by rfl) (by decide) (by decide) (by decide) (by decide) (by decide) (by decide) (by decide)

/-- C8 as stated fails: `B1x1|X2` has a valid header and a run with the unknown
symbol `X`, and is refused with `INIT_ERR_INCORRECT_DIMENSIONS`, because the count is
checked against the width before the symbol is looked at. -/
theorem unknown_symbol_other_code :
    set_dimensions "B1x1".toList 0 0 = (INIT_SUCCESS, 1, 1) ∧
    strtok_all (c_string "B1x1|X2".toList) = ["B1x1".toList, "X2".toList] ∧
    token_runs "X2".toList = [('X', ['2'])] ∧
    decompress_board_str sample game0 "B1x1|X2".toList
      = .done (INIT_ERR_INCORRECT_DIMENSIONS, game0) :=
  ⟨by decide, by decide, by decide, by rfl⟩

/-- C9 (as amended): for a valid header of a board of fewer than `2^31` cells whose
array `malloc` grants, after complete valid rows (fewer than the height), a row token
whose runs are valid and do not exceed the width up to a last symbol that has no
digit after it is refused with `INIT_ERR_BAD_CHAR`. -/
theorem missing_count_refused (P : Platform) (g : Game) (s header : List Char)
    (pre : List (List Char)) (token : List Char) (post : List (List Char)) (H W : Nat)
    (rpre : List (Char × List Char)) (last : Char)
    (htok : strtok_all (c_string s) = header :: (pre ++ token :: post))
    (hdim : set_dimensions header 0 0 = (INIT_SUCCESS, H, W))
    (hfit : W * H < 2147483648) (halloc : P.malloc_ok (W * H * 4) = true)
    (hpre : ∀ t ∈ pre, valid_row W t) (hlen : pre.length < H)
    (hruns : token_runs token = rpre ++ [(last, [])]) (hv : ∀ r ∈ rpre, valid_run r)
    (hroom : counts_sum rpre ≤ W) :
    decompress_board_str P g s = .done (INIT_ERR_BAD_CHAR, g) := by
  apply decompress_exit_at_run P g s header pre token post H W rpre (last, []) [] _ htok hdim hfit
    halloc hpre hlen hruns hv hroom
  intro L _ _
  exact run_body_no_digits P W (W * H) last L

/-- C9, an instance: `B2x2|W1E1|E1S` is refused with `INIT_ERR_BAD_CHAR`. -/
theorem missing_count_refused_witness :
    decompress_board_str sample game0 "B2x2|W1E1|E1S".toList = .done (INIT_ERR_BAD_CHAR, game0) :=
  missing_count_refused sample game0 "B2x2|W1E1|E1S".toList "B2x2".toList ["W1E1".toList]
    "E1S".toList [] 2 2 [('E', ['1'])] 'S' (by decide) (by decide) (by decide)
    (by rfl) (by decide) (by decide) (by decide) (by decide) (by decide)

/-- C9 as stated fails: `B1x1|E2W` has a valid header and a row token that ends with
the symbol `W` without a digit, and is refused with `INIT_ERR_INCORRECT_DIMENSIONS`:
the run `E2` before it exceeds the width. -/
theorem missing_count_other_code :
    set_dimensions "B1x1".toList 0 0 = (INIT_SUCCESS, 1, 1) ∧
    strtok_all (c_string "B1x1|E2W".toList) = ["B1x1".toList, "E2W".toList] ∧
    token_runs "E2W".toList = [('E', ['2']), ('W', [])] ∧
    decompress_board_str sample game0 "B1x1|E2W".toList
      = .done (INIT_ERR_INCORRECT_DIMENSIONS, game0) :=
  ⟨by decide, by decide, by decide, by rfl⟩

/-- C10 (as amended): for a valid header of a board of fewer than `2^31` cells whose
array `malloc` grants: an input of as many valid rows as the height with two or more
`S1` runs is refused with `INIT_ERR_WRONG_SNAKE_NUM`; and after complete valid rows
(fewer than the height) and after valid runs of its row, a run `S<n>` with `n ≠ 1`
and a count of 1 to 19 digits that, with the counts before it, does not exceed the
width is refused with `INIT_ERR_WRONG_SNAKE_NUM`. -/
theorem snake_count_refused (P : Platform) (g : Game) (s header : List Char) (H W : Nat)
    (hdim : set_dimensions header 0 0 = (INIT_SUCCESS, H, W))
    (hfit : W * H < 2147483648) (halloc : P.malloc_ok (W * H * 4) = true) :
    (∀ tokens : List (List Char), strtok_all (c_string s) = header :: tokens →
      (∀ token ∈ tokens, valid_row W token) → tokens.length = H →
      2 ≤ snake_runs (rows_runs tokens) →
      decompress_board_str P g s = .done (INIT_ERR_WRONG_SNAKE_NUM, g)) ∧
    (∀ (pre : List (List Char)) (token : List Char) (post : List (List Char))
      (rpre : List (Char × List Char)) (bad : Char × List Char) (rpost : List (Char × List Char)),
      strtok_all (c_string s) = header :: (pre ++ token :: post) →
      (∀ t ∈ pre, valid_row W t) → pre.length < H →
      token_runs token = rpre ++ bad :: rpost → (∀ r ∈ rpre, valid_run r) →
      bad.1 = 'S' → run_count bad ≠ 1 → bad.2 ≠ [] → bad.2.length < 20 →
      counts_sum rpre + run_count bad ≤ W →
      decompress_board_str P g s = .done (INIT_ERR_WRONG_SNAKE_NUM, g)) := by
  constructor
  · intro tokens htok hrows hlen hmany
    rw [decompress_valid_rows P g s header tokens H W htok hdim hfit halloc hrows hlen,
      if_neg (by omega)]
  · intro pre token post rpre bad rpost htok hpre hlen hruns hv hS hn hne hshort hroom
    obtain ⟨hH, hW⟩ := set_dimensions_success _ _ _ _ _ hdim
    have hWlt : W < 2147483648 := by
      have : W * 1 ≤ W * H := Nat.mul_le_mul_left W (by omega)
      omega
    have hle : (pre.length + 1) * W ≤ W * H := by
      rw [Nat.mul_comm W H]; exact Nat.mul_le_mul_right W (by omega)
    have hle2 : (pre.length + 1) * W = pre.length * W + W := by ring
    have hdig : ∀ c ∈ bad.2, isdigit c = true :=
      token_runs_all_digits token bad (by rw [hruns]; simp)
    apply decompress_exit_at_run P g s header pre token post H W rpre bad rpost _ htok hdim hfit
      halloc hpre hlen hruns hv (by omega)
    intro L hp ha
    rw [run_body_fits P W (W * H) bad L _ _ hne hshort hdig hp ha
      (by rw [to_int_small W hWlt]; exact_mod_cast hroom)
      (by rw [to_int_small _ hfit]; exact_mod_cast (by omega :
        pre.length * W + counts_sum rpre + run_count bad ≤ W * H)),
      hS, fill_cells_snake_count P _ _ _ _ (by exact_mod_cast hn)]
    simp

/-- C10, an instance: `B2x2|S1E1|E1S1` is refused with `INIT_ERR_WRONG_SNAKE_NUM`. -/
theorem snake_count_refused_witness :
    decompress_board_str sample game0 "B2x2|S1E1|E1S1".toList
      = .done (INIT_ERR_WRONG_SNAKE_NUM, game0) :=
  (snake_count_refused sample game0 "B2x2|S1E1|E1S1".toList "B2x2".toList 2 2 (by decide)
    (by decide) (by rfl)).1 ["S1E1".toList, "E1S1".toList] (by decide) (by decide) (by decide)
    (by decide)

/-- C10 as stated fails: `B1x1|S2` (a run `S2`) is refused with
`INIT_ERR_INCORRECT_DIMENSIONS`, and `B2x2|S1S1|X2` (two `S1` runs) with
`INIT_ERR_BAD_CHAR`; both have a valid header. -/
theorem snake_count_other_code :
    (set_dimensions "B1x1".toList 0 0 = (INIT_SUCCESS, 1, 1) ∧
      rows_runs (strtok_all (c_string "B1x1|S2".toList)).tail = [('S', ['2'])] ∧
      decompress_board_str sample game0 "B1x1|S2".toList
        = .done (INIT_ERR_INCORRECT_DIMENSIONS, game0)) ∧
    (set_dimensions "B2x2".toList 0 0 = (INIT_SUCCESS, 2, 2) ∧
      rows_runs (strtok_all (c_string "B2x2|S1S1|X2".toList)).tail
        = [('S', ['1']), ('S', ['1']), ('X', ['2'])] ∧
      decompress_board_str sample game0 "B2x2|S1S1|X2".toList
        = .done (INIT_ERR_BAD_CHAR, game0)) :=
  ⟨⟨by decide, by decide, by rfl⟩, ⟨by decide, by decide, by rfl⟩⟩

/-- C11 (as amended): for a valid header of a board of fewer than `2^31` cells whose
array `malloc` grants, the decoder returns `INIT_ERR_INCORRECT_DIMENSIONS` when the
row tokens are valid rows but fewer than the height; when a token follows as many
valid rows as the height; when, after fewer valid rows than the height, a row token
of valid runs sums to less than the width; and when, after fewer valid rows than the
height and after valid runs of its row, a run with a count of 1 to 19 digits takes
the sum of the row beyond the width (and not beyond `INT_MAX`). -/
theorem wrong_dimensions_refused (P : Platform) (g : Game) (s header : List Char) (H W : Nat)
    (hdim : set_dimensions header 0 0 = (INIT_SUCCESS, H, W))
    (hfit : W * H < 2147483648) (halloc : P.malloc_ok (W * H * 4) = true) :
    (∀ tokens : List (List Char), strtok_all (c_string s) = header :: tokens →
      (∀ t ∈ tokens, valid_row W t) → tokens.length < H →
      decompress_board_str P g s = .done (INIT_ERR_INCORRECT_DIMENSIONS, g)) ∧
    (∀ (pre : List (List Char)) (extra : List Char) (post : List (List Char)),
      strtok_all (c_string s) = header :: (pre ++ extra :: post) →
      (∀ t ∈ pre, valid_row W t) → pre.length = H →
      decompress_board_str P g s = .done (INIT_ERR_INCORRECT_DIMENSIONS, g)) ∧
    (∀ (pre : List (List Char)) (token : List Char) (post : List (List Char)),
      strtok_all (c_string s) = header :: (pre ++ token :: post) →
      (∀ t ∈ pre, valid_row W t) → pre.length < H →
      (∀ r ∈ token_runs token, valid_run r) → counts_sum (token_runs token) < W →
      decompress_board_str P g s = .done (INIT_ERR_INCORRECT_DIMENSIONS, g)) ∧
    (∀ (pre : List (List Char)) (token : List Char) (post : List (List Char))
      (rpre : List (Char × List Char)) (big : Char × List Char) (rpost : List (Char × List Char)),
      strtok_all (c_string s) = header :: (pre ++ token :: post) →
      (∀ t ∈ pre, valid_row W t) → pre.length < H →
      token_runs token = rpre ++ big :: rpost → (∀ r ∈ rpre, valid_run r) →
      counts_sum rpre ≤ W → big.2 ≠ [] → big.2.length < 20 →
      W < counts_sum rpre + run_count big → counts_sum rpre + run_count big ≤ 2147483647 →
      decompress_board_str P g s = .done (INIT_ERR_INCORRECT_DIMENSIONS, g)) := by
  obtain ⟨hH, hW⟩ := set_dimensions_success _ _ _ _ _ hdim
  have hWlt : W < 2147483648 := by
    have : W * 1 ≤ W * H := Nat.mul_le_mul_left W (by omega)
    omega
  have htw : to_int W = (W : Int) := to_int_small W hWlt
  have hti : to_int (W * H) = ((W * H : Nat) : Int) := to_int_small _ hfit
  refine ⟨?_, ?_, ?_, ?_⟩
  · intro tokens htok hrows hlen
    have h := decompress_after_rows P g s header tokens [] H W (by simpa using htok) hdim hfit
      halloc hrows (by omega)
    rw [h]
    simp only [token_loop, finish]
    rw [if_pos (by omega)]
  · intro pre extra post htok hpre hlen
    rw [decompress_after_rows P g s header pre (extra :: post) H W htok hdim hfit halloc hpre
      (by omega)]
    simp only [token_loop, row_step_eq]
    rw [if_pos (by show pre.length ≥ H; omega)]
    rfl
  · intro pre token post htok hpre hlen hv hsum
    have hle : (pre.length + 1) * W ≤ W * H := by
      rw [Nat.mul_comm W H]; exact Nat.mul_le_mul_right W (by omega)
    have hle2 : (pre.length + 1) * W = pre.length * W + W := by ring
    obtain ⟨hvr, hcs⟩ := rows_runs_valid W pre hpre
    have hsn := snake_runs_le _ hvr
    have hsn2 := snake_runs_le _ hv
    rw [decompress_after_rows P g s header pre (token :: post) H W htok hdim hfit halloc hpre
      (by omega)]
    simp only [token_loop, row_step_eq]
    rw [if_neg (by show ¬ pre.length ≥ H; omega)]
    rw [run_list_valid P W (W * H) (token_runs token) _ (pre.length * W) 0 hv rfl rfl
      (by rw [htw]; simp only [Nat.zero_add]; exact_mod_cast (by omega : counts_sum (token_runs token) ≤ W))
      (by rw [hti]; exact_mod_cast (by omega : pre.length * W + counts_sum (token_runs token) ≤ W * H))
      (by simp only [blit_size]; omega) (by simp only []; omega)]
    simp only [Nat.zero_add]
    rw [if_pos (by rw [htw]; simp only [ne_eq]; intro e; have := Int.ofNat.inj e; omega)]
    rfl
  · intro pre token post rpre big rpost htok hpre hlen hruns hv hroom hne hshort hover hint
    have hdig : ∀ c ∈ big.2, isdigit c = true :=
      token_runs_all_digits token big (by rw [hruns]; simp)
    apply decompress_exit_at_run P g s header pre token post H W rpre big rpost _ htok hdim hfit
      halloc hpre hlen hruns hv hroom
    intro L _ ha
    exact run_body_overfull P W (W * H) big L (counts_sum rpre) hne hshort hdig ha
      (by rw [htw]; exact_mod_cast hover) hint

/-- C11, an instance: `B2x2|W1E2|E1S1` is refused with
`INIT_ERR_INCORRECT_DIMENSIONS`. -/
theorem wrong_dimensions_refused_witness :
    decompress_board_str sample game0 "B2x2|W1E2|E1S1".toList
      = .done (INIT_ERR_INCORRECT_DIMENSIONS, game0) :=
  (wrong_dimensions_refused sample game0 "B2x2|W1E2|E1S1".toList "B2x2".toList 2 2 (by decide)
    (by decide) (by rfl)).2.2.2 [] "W1E2".toList ["E1S1".toList] [('W', ['1'])] ('E', ['2']) []
    (by decide) (by decide) (by decide) (by decide) (by decide) (by decide) (by decide)
    (by decide) (by decide) (by decide)

/-- C11 as stated fails: `B2x2|X1E1` has a valid header and one row token for height 2,
and is refused with `INIT_ERR_BAD_CHAR`; `B1x2|E1S` has a row token whose counts sum
to 1 for width 2, and is refused with `INIT_ERR_BAD_CHAR`. -/
theorem wrong_dimensions_other_code :
    (set_dimensions "B2x2".toList 0 0 = (INIT_SUCCESS, 2, 2) ∧
      strtok_all (c_string "B2x2|X1E1".toList) = ["B2x2".toList, "X1E1".toList] ∧
      decompress_board_str sample game0 "B2x2|X1E1".toList = .done (INIT_ERR_BAD_CHAR, game0)) ∧
    (set_dimensions "B1x2".toList 0 0 = (INIT_SUCCESS, 1, 2) ∧
      strtok_all (c_string "B1x2|E1S".toList) = ["B1x2".toList, "E1S".toList] ∧
      counts_sum (token_runs "E1S".toList) = 1 ∧
      decompress_board_str sample game0 "B1x2|E1S".toList = .done (INIT_ERR_BAD_CHAR, game0)) :=
  ⟨⟨by decide, by decide, by rfl⟩, ⟨by decide, by decide, by decide, by rfl⟩⟩

/-- C12 (as amended): when `malloc` grants the array of `20 * 10 * sizeof(int)`
bytes, `initialize_default_board` returns `INIT_SUCCESS` with width 20, height 10 and
an array of 200 cells whose cell at `r * 20 + c` is wall on the outer ring, else snake
at row 2, column 2, else grass on the next ring, else plain; with cell values that
keep the snake bit apart, index 42 is the one cell with the snake bit; and
`initialize_game` without an input string stores `2 * 20 + 2` as snake head. -/
theorem default_board (P : Platform) (g : Game) (place_food : Mem → Nat → Nat → Mem)
    (w : Session) (hm : P.malloc_ok (20 * 10 * 4) = true) :
    (∃ g1, initialize_default_board P g = .done (INIT_SUCCESS, g1) ∧
      g1.width = 20 ∧ g1.height = 10 ∧ g1.cells.size = 200 ∧
      (∀ r c, r < 10 → c < 20 → g1.cells.read (r * 20 + c) = default_cell P r c) ∧
      (P.flags_ok → ∀ i, i < 200 → (g1.cells.read i &&& P.FLAG_SNAKE ≠ 0 ↔ i = 42))) ∧
    (∃ w1, initialize_game P place_food w none = .done (INIT_SUCCESS, w1) ∧
      w1.game.snake_head = 42 ∧ w1.game.width = 20 ∧ w1.game.height = 10) := by
  obtain ⟨g1, hg, hw, hh, hs, hl⟩ := default_cells_list P g hm
  have hread : ∀ i, i < 200 → g1.cells.read i = default_cell P (i / 20) (i % 20) := by
    intro i hi
    exact (List.map_inj_left.1 hl) i (List.mem_range.2 hi)
  constructor
  · refine ⟨g1, hg, hw, hh, hs, ?_, ?_⟩
    · intro r c hr hc
      rw [hread _ (by omega)]
      congr 1 <;> omega
    · intro hP i hi
      rw [hread i hi, default_cell_snake_bit P hP]
      omega
  · obtain ⟨g2, hg2, hw2, hh2, -, -⟩ := default_cells_list P w.game hm
    unfold initialize_game
    simp only [hg2]
    exact ⟨_, rfl, rfl, hw2, hh2⟩

/-- C12, an instance: the default board with the sample constants, whose snake bit is
a bit of its own, and an allocator that grants the array; the cell in row 2, column 2
and the cells 42 and 41. -/
theorem default_board_witness :
    sample.flags_ok ∧ sample.malloc_ok (20 * 10 * 4) = true ∧
    (∃ g1, initialize_default_board sample game0 = .done (INIT_SUCCESS, g1) ∧
      g1.width = 20 ∧ g1.height = 10 ∧ g1.cells.size = 200 ∧
      g1.cells.read (2 * 20 + 2) = default_cell sample 2 2 ∧
      (g1.cells.read 42 &&& sample.FLAG_SNAKE ≠ 0 ↔ 42 = 42) ∧
      (g1.cells.read 41 &&& sample.FLAG_SNAKE ≠ 0 ↔ 41 = 42)) ∧
    (∃ w1, initialize_game sample (fun cells _ _ => cells)
        { game := game0, g_game_over := 1, g_score := 7 } none = .done (INIT_SUCCESS, w1) ∧
      w1.game.snake_head = 42 ∧ w1.game.width = 20 ∧ w1.game.height = 10) := by
  obtain ⟨⟨g1, h1, h2, h3, h4, h5, h6⟩, hg⟩ := default_board sample game0 (fun cells _ _ => cells)
    { game := game0, g_game_over := 1, g_score := 7 } (by rfl)
  exact ⟨by decide, by rfl, ⟨g1, h1, h2, h3, h4, h5 2 2 (by decide) (by decide),
    h6 (by decide) 42 (by decide), h6 (by decide) 41 (by decide)⟩, hg⟩

/-- C12 as stated fails: when `malloc` returns `NULL`, `initialize_default_board`
does not return `INIT_SUCCESS`: its first store, `cells[0] = PLAIN_CELL`, goes
through the null pointer; and so for `initialize_game` without an input string. -/
theorem default_board_no_memory :
    no_memory.malloc_ok (20 * 10 * 4) = false ∧
    initialize_default_board no_memory game0 = .undefined .out_of_bounds ∧
    initialize_game no_memory (fun cells _ _ => cells)
      { game := game0, g_game_over := 1, g_score := 7 } none = .undefined .out_of_bounds :=
  ⟨by rfl, by rfl, by rfl⟩

/-- C13 (as amended): in an accepted input every run of every row token has a count
(at least one digit), and the count of every `S` run, as `atoi` reads it, is 1, so
greater than zero; the count of a `W`, `E` or `G` run may be 0. -/
theorem accepted_runs (P : Platform) (g g1 : Game) (s : List Char)
    (h : decompress_board_str P g s = .done (INIT_SUCCESS, g1)) :
    ∀ t ∈ (strtok_all (c_string s)).tail, ∀ r ∈ token_runs t,
      r.2 ≠ [] ∧ (r.1 = 'S' → atoi r.2 = 1 ∧ 0 < atoi r.2) := by
  intro t ht r hr
  obtain ⟨h1, -, h3⟩ := decompress_success_runs P g g1 s h t ht r hr
  refine ⟨h1, fun hS => ?_⟩
  have := h3 hS
  exact ⟨this, by omega⟩

/-- C13, an instance: the run `S1` of the row token of `B1x2|E1S1`, which is accepted,
has the count 1. -/
theorem accepted_runs_witness :
    status_of (decompress_board_str sample game0 "B1x2|E1S1".toList) = some INIT_SUCCESS ∧
    ['1'] ≠ [] ∧ atoi ['1'] = 1 ∧ 0 < atoi ['1'] := by
  have h := accepted_runs sample game0 _ "B1x2|E1S1".toList rfl "E1S1".toList (by decide)
    ('S', ['1']) (by decide)
  exact ⟨by rfl, h.1, h.2 rfl⟩

/-- C13 as stated fails: `B1x1|E0S1` is accepted, and the first run of its row token
has the count `0`. -/
theorem zero_count_accepted :
    status_of (decompress_board_str sample game0 "B1x1|E0S1".toList) = some INIT_SUCCESS ∧
    (strtok_all (c_string "B1x1|E0S1".toList)).tail = ["E0S1".toList] ∧
    token_runs "E0S1".toList = [('E', ['0']), ('S', ['1'])] ∧
    atoi ['0'] = 0 ∧ run_count ('E', ['0']) = 0 :=
  ⟨by rfl, by decide, by decide, by decide, by decide⟩

/-- C14 (as amended): a header token on which `set_dimensions` returns `INIT_SUCCESS`
is `'B'` followed by a text that contains an `'x'`; the text after the `'B'` and the
text after its first `'x'` each have, after white space and one optional sign, a
decimal digit; and the height and the width stored are the `strtol` values of these
two texts converted to `size_t`, both not zero.  What follows the digits is not
looked at. -/
theorem header_shape (token : List Char) (h0 w0 H W : Nat)
    (h : set_dimensions token h0 w0 = (INIT_SUCCESS, H, W)) :
    ∃ rest, token = 'B' :: rest ∧ 'x' ∈ rest ∧
      (∃ d ds, number_text rest = d :: ds ∧ isdigit d = true) ∧
      (∃ d ds, number_text (after_x rest) = d :: ds ∧ isdigit d = true) ∧
      H = to_size_t (strtol rest) ∧ W = to_size_t (strtol (after_x rest)) ∧
      H ≠ 0 ∧ W ≠ 0 := by
  rw [set_dimensions_eq] at h
  split at h
  · simp at h
  rename_i hc
  split at h
  · simp at h
  rename_i hz
  simp only [not_or, not_not] at hc hz
  simp only [Prod.mk.injEq, true_and] at h
  cases token with
  | nil => simp at hc
  | cons c rest =>
    simp only [List.head?_cons, Option.some.injEq, List.tail_cons] at hc hz h
    refine ⟨rest, by rw [hc.1], hc.2, strtol_ne_zero _ hz.1, strtol_ne_zero _ hz.2,
      h.1.symm, h.2.symm, ?_, ?_⟩
    · rw [← h.1]; exact hz.1
    · rw [← h.2]; exact hz.2

/-- C14, an instance: the header `B10x20`. -/
theorem header_shape_witness :
    ∃ rest, "B10x20".toList = 'B' :: rest ∧ 'x' ∈ rest ∧
      (∃ d ds, number_text rest = d :: ds ∧ isdigit d = true) ∧
      (∃ d ds, number_text (after_x rest) = d :: ds ∧ isdigit d = true) ∧
      10 = to_size_t (strtol rest) ∧ 20 = to_size_t (strtol (after_x rest)) ∧
      10 ≠ 0 ∧ 20 ≠ 0 :=
  header_shape "B10x20".toList 0 0 10 20 (by decide)

/-- C14 as stated fails: `set_dimensions` returns `INIT_SUCCESS` on `B 2x2junk`, with
white space before the height and characters after the width, on `B-1x+1`, with
signs, and on `B2yx2`, with a character between the height and the `'x'`; none of
them is `'B'`, decimal digits, `'x'`, decimal digits. -/
theorem header_not_exact :
    set_dimensions "B 2x2junk".toList 0 0 = (INIT_SUCCESS, 2, 2) ∧
    set_dimensions "B-1x+1".toList 0 0 = (INIT_SUCCESS, 18446744073709551615, 1) ∧
    set_dimensions "B2yx2".toList 0 0 = (INIT_SUCCESS, 2, 2) ∧
    (∀ token ∈ ["B 2x2junk".toList, "B-1x+1".toList, "B2yx2".toList],
      ¬ ∃ hd wd, numeral hd ∧ numeral wd ∧ token = 'B' :: (hd ++ 'x' :: wd)) := by
  refine ⟨by decide, by decide, by decide, ?_⟩
  intro token ht
  rintro ⟨hd, wd, ⟨hne, hdig⟩, ⟨-, hwdig⟩, e⟩
  simp only [List.mem_cons, List.mem_singleton, List.not_mem_nil, or_false] at ht
  rcases ht with rfl | rfl | rfl
  · cases hd with
    | nil => exact hne rfl
    | cons c cs =>
      simp only [String.toList, List.cons_append, List.cons.injEq] at e
      have := hdig c (List.mem_cons_self _ _)
      rw [← e.2.1] at this
      exact absurd this (by decide)
  · cases hd with
    | nil => exact hne rfl
    | cons c cs =>
      simp only [String.toList, List.cons_append, List.cons.injEq] at e
      have := hdig c (List.mem_cons_self _ _)
      rw [← e.2.1] at this
      exact absurd this (by decide)
  · cases hd with
    | nil => exact hne rfl
    | cons c cs =>
      simp only [String.toList, List.cons_append, List.cons.injEq] at e
      cases cs with
      | nil =>
        simp only [List.nil_append, List.cons.injEq] at e
        exact absurd e.2.2.1 (by decide)
      | cons c2 cs2 =>
        simp only [List.cons_append, List.cons.injEq] at e
        have := hdig c2 (by simp)
        rw [← e.2.2.1] at this
        exact absurd this (by decide)

/-- C15: for a range of `int` indices inside the array (`0 <= start`, `0 <= count`,
`start + count` at most the size of the array), `fill_cells` with symbol `W`, `E` or
`G` returns `INIT_SUCCESS`, leaves `FLAG_WALL`, `PLAIN_CELL` or `FLAG_GRASS` in the
cells `start .. start + count - 1`, every other cell and the snake counter as they
were; with symbol `S` and count 1 it returns `INIT_SUCCESS`, leaves `FLAG_SNAKE` in
cell `start`, every other cell as it was, and the snake counter increased by one (in
`size_t`); with symbol `S` and another count it returns `INIT_ERR_WRONG_SNAKE_NUM`,
with any other symbol `INIT_ERR_BAD_CHAR`, both with the array and the counter as
they were. -/
theorem fill_cells_contract (P : Platform) (cells : Mem) (start_pos count : Int)
    (snake_count : Nat) :
    (0 ≤ start_pos → 0 ≤ count → start_pos + count ≤ cells.size →
      start_pos + count ≤ 2147483648 →
      ∀ cell_type flag, (cell_type = 'W' ∧ flag = P.FLAG_WALL) ∨
        (cell_type = 'E' ∧ flag = P.PLAIN_CELL) ∨ (cell_type = 'G' ∧ flag = P.FLAG_GRASS) →
      ∃ cells1, fill_cells P cells start_pos count cell_type snake_count
          = .done (INIT_SUCCESS, cells1, snake_count) ∧
        cells1.size = cells.size ∧
        ∀ j : Nat, cells1.read j =
          if start_pos ≤ j ∧ (j : Int) < start_pos + count then flag else cells.read j) ∧
    (0 ≤ start_pos → start_pos + 1 ≤ cells.size → start_pos + 1 ≤ 2147483648 → count = 1 →
      ∃ cells1, fill_cells P cells start_pos count 'S' snake_count
          = .done (INIT_SUCCESS, cells1, (snake_count + 1) % 18446744073709551616) ∧
        (snake_count + 1 < 18446744073709551616 →
          (snake_count + 1) % 18446744073709551616 = snake_count + 1) ∧
        cells1.size = cells.size ∧
        ∀ j : Nat, cells1.read j = if (j : Int) = start_pos then P.FLAG_SNAKE else cells.read j) ∧
    (count ≠ 1 →
      fill_cells P cells start_pos count 'S' snake_count
        = .done (INIT_ERR_WRONG_SNAKE_NUM, cells, snake_count)) ∧
    (∀ cell_type, ¬ (cell_type = 'W' ∨ cell_type = 'E' ∨ cell_type = 'G' ∨ cell_type = 'S') →
      fill_cells P cells start_pos count cell_type snake_count
        = .done (INIT_ERR_BAD_CHAR, cells, snake_count)) := by
  refine ⟨?_, ?_, ?_, ?_⟩
  · intro h0 hc hsz hmax cell_type flag hsym
    rw [fill_cells_eq P cells start_pos count cell_type snake_count h0 hc hsz hmax]
    rcases hsym with ⟨rfl, rfl⟩ | ⟨rfl, rfl⟩ | ⟨rfl, rfl⟩
    · rw [if_pos rfl]
      exact ⟨_, rfl, blit_size _ _ _, fun j => blit_replicate_read _ _ _ _ j h0 hc⟩
    · rw [if_neg (by decide), if_pos rfl]
      exact ⟨_, rfl, blit_size _ _ _, fun j => blit_replicate_read _ _ _ _ j h0 hc⟩
    · rw [if_neg (by decide), if_neg (by decide), if_pos rfl]
      exact ⟨_, rfl, blit_size _ _ _, fun j => blit_replicate_read _ _ _ _ j h0 hc⟩
  · intro h0 hsz hmax h1
    subst h1
    rw [fill_cells_eq P cells start_pos 1 'S' snake_count h0 (by decide) hsz hmax]
    rw [if_neg (by decide), if_neg (by decide), if_neg (by decide), if_pos rfl,
      if_neg (by simp)]
    refine ⟨_, rfl, fun h => Nat.mod_eq_of_lt h, blit_size _ _ _, fun j => ?_⟩
    rw [blit_replicate_read _ _ _ _ j h0 (by decide)]
    by_cases hj : (j : Int) = start_pos
    · rw [if_pos (by omega), if_pos hj]
    · rw [if_neg (by omega), if_neg hj]
  · intro h1
    exact fill_cells_snake_count P cells start_pos count snake_count h1
  · intro cell_type hsym
    exact fill_cells_bad_symbol P cells start_pos count cell_type snake_count hsym

/-- C15, an instance: `fill_cells` on an array of four cells, from index 1 on, with
count 2 and symbol `W`, and with count 1 and symbol `S`; with count 2 and symbol `S`,
and with symbol `X`. -/
theorem fill_cells_contract_witness :
    (∃ cells1, fill_cells sample { size := 4, read := sample.fresh, log := [] } 1 2 'W' 0
        = .done (INIT_SUCCESS, cells1, 0) ∧
      cells1.size = 4 ∧
      ∀ j : Nat, cells1.read j =
        if (1 : Int) ≤ j ∧ (j : Int) < 1 + 2 then sample.FLAG_WALL else sample.fresh j) ∧
    (∃ cells1, fill_cells sample { size := 4, read := sample.fresh, log := [] } 1 1 'S' 0
        = .done (INIT_SUCCESS, cells1, (0 + 1) % 18446744073709551616) ∧
      (0 + 1 < 18446744073709551616 → (0 + 1) % 18446744073709551616 = 0 + 1) ∧
      cells1.size = 4 ∧
      ∀ j : Nat, cells1.read j = if (j : Int) = 1 then sample.FLAG_SNAKE else sample.fresh j) ∧
    fill_cells sample { size := 4, read := sample.fresh, log := [] } 1 2 'S' 0
      = .done (INIT_ERR_WRONG_SNAKE_NUM, { size := 4, read := sample.fresh, log := [] }, 0) ∧
    fill_cells sample { size := 4, read := sample.fresh, log := [] } 1 2 'X' 0
      = .done (INIT_ERR_BAD_CHAR, { size := 4, read := sample.fresh, log := [] }, 0) :=
  ⟨(fill_cells_contract sample { size := 4, read := sample.fresh, log := [] } 1 2 0).1
      (by decide) (by decide) (by decide) (by decide) 'W' sample.FLAG_WALL (Or.inl ⟨rfl, rfl⟩),
    (fill_cells_contract sample { size := 4, read := sample.fresh, log := [] } 1 1 0).2.1
      (by decide) (by decide) (by decide) rfl,
    (fill_cells_contract sample { size := 4, read := sample.fresh, log := [] } 1 2 0).2.2.1
      (by decide),
    (fill_cells_contract sample { size := 4, read := sample.fresh, log := [] } 1 2 0).2.2.2 'X'
      (by decide)⟩

/-- C16 at the inputs `B1x1|E1E2147483647` and `B1x1|E4294967295S1`, both with a valid
header for a board of one cell.  In the first, after the run `E1` the sums
`row_cells + count` and `cell_pos + count` for the count 2147483647 wrap to
`-2147483648`, both checks pass, and `fill_cells` is called with start index 1 and
count 2147483647 on the array of one cell: its first store is outside the array.  In
the second, `atoi` reads the count 4294967295 as `-1`, `fill_cells` is called with
count `-1`, `cell_pos` becomes `-1`, and the call for the run `S1` has start index
`-1`: its store is outside the array. -/
theorem fill_call_outside :
    (strtok_all (c_string "B1x1|E1E2147483647".toList)
        = ["B1x1".toList, "E1E2147483647".toList] ∧
      set_dimensions "B1x1".toList 0 0 = (INIT_SUCCESS, 1, 1) ∧
      token_runs "E1E2147483647".toList = [('E', ['1']), ('E', "2147483647".toList)] ∧
      (∃ cells L2, malloc sample (size_mul (size_mul 1 1) 4) = some cells ∧ cells.size = 1 ∧
        run_list sample 1 (size_mul 1 1) [('E', ['1'])]
          { cells := cells, snake_count := 0, cell_pos := 0, row_count := 0, row_cells := 0 }
            = .next L2 ∧
        L2.cells.size = 1 ∧ L2.row_cells = 1 ∧ L2.cell_pos = 1 ∧
        atoi "2147483647".toList = 2147483647 ∧
        int_add L2.row_cells 2147483647 = -2147483648 ∧
        int_add L2.cell_pos 2147483647 = -2147483648 ∧
        fill_call 1 (size_mul 1 1) "2147483647".toList L2 = some (1, 2147483647) ∧
        fill_cells sample L2.cells 1 2147483647 'E' L2.snake_count
          = .undefined .out_of_bounds) ∧
      decompress_board_str sample game0 "B1x1|E1E2147483647".toList
        = .undefined .out_of_bounds) ∧
    (strtok_all (c_string "B1x1|E4294967295S1".toList)
        = ["B1x1".toList, "E4294967295S1".toList] ∧
      token_runs "E4294967295S1".toList = [('E', "4294967295".toList), ('S', ['1'])] ∧
      atoi "4294967295".toList = -1 ∧
      (∃ cells L2, malloc sample (size_mul (size_mul 1 1) 4) = some cells ∧ cells.size = 1 ∧
        fill_call 1 (size_mul 1 1) "4294967295".toList
          { cells := cells, snake_count := 0, cell_pos := 0, row_count := 0, row_cells := 0 }
            = some (0, -1) ∧
        run_list sample 1 (size_mul 1 1) [('E', "4294967295".toList)]
          { cells := cells, snake_count := 0, cell_pos := 0, row_count := 0, row_cells := 0 }
            = .next L2 ∧
        L2.cells.size = 1 ∧ L2.cell_pos = -1 ∧
        fill_call 1 (size_mul 1 1) ['1'] L2 = some (-1, 1) ∧
        fill_cells sample L2.cells (-1) 1 'S' L2.snake_count = .undefined .out_of_bounds) ∧
      decompress_board_str sample game0 "B1x1|E4294967295S1".toList
        = .undefined .out_of_bounds) :=
  ⟨⟨by decide, by decide, by decide,
      ⟨_, _, rfl, rfl, rfl, rfl, rfl, rfl, by decide, by decide, by decide, by rfl, by rfl⟩,
      by rfl⟩,
    ⟨by decide, by decide, by decide,
      ⟨_, _, rfl, rfl, by rfl, rfl, rfl, rfl, by rfl, by rfl⟩, by rfl⟩⟩

/-- C17 (as amended): for a valid header of a board of fewer than `2^31` cells whose
array `malloc` grants, and as many row tokens as the height, all valid rows of
`width` cells (runs with a symbol in `W`, `E`, `G`, `S`, a count of 1 to 19 digits,
count 1 for `S`), the decoder returns `INIT_SUCCESS` if exactly one run has symbol
`S`, and `INIT_ERR_WRONG_SNAKE_NUM` otherwise. -/
theorem snake_tally (P : Platform) (g : Game) (s header : List Char)
    (tokens : List (List Char)) (H W : Nat)
    (htok : strtok_all (c_string s) = header :: tokens)
    (hdim : set_dimensions header 0 0 = (INIT_SUCCESS, H, W))
    (hfit : W * H < 2147483648) (halloc : P.malloc_ok (W * H * 4) = true)
    (hrows : ∀ token ∈ tokens, valid_row W token) (hlen : tokens.length = H) :
    (snake_runs (rows_runs tokens) = 1 →
      status_of (decompress_board_str P g s) = some INIT_SUCCESS) ∧
    (snake_runs (rows_runs tokens) ≠ 1 →
      decompress_board_str P g s = .done (INIT_ERR_WRONG_SNAKE_NUM, g)) := by
  have h := decompress_valid_rows P g s header tokens H W htok hdim hfit halloc hrows hlen
  constructor
  · intro h1
    rw [h, if_pos h1]
    rfl
  · intro h1
    rw [h, if_neg h1]

/-- C17, an instance: `B2x2|W1E1|E1G1` has no `S` run and is refused with
`INIT_ERR_WRONG_SNAKE_NUM`; `B2x2|W1E1|E1S1` has one and is accepted. -/
theorem snake_tally_witness :
    decompress_board_str sample game0 "B2x2|W1E1|E1G1".toList
        = .done (INIT_ERR_WRONG_SNAKE_NUM, game0) ∧
      status_of (decompress_board_str sample game0 "B2x2|W1E1|E1S1".toList) = some INIT_SUCCESS :=
  ⟨(snake_tally sample game0 "B2x2|W1E1|E1G1".toList "B2x2".toList
      ["W1E1".toList, "E1G1".toList] 2 2 (by decide) (by decide) (by decide) (by rfl) (by decide)
      (by decide)).2 (by decide),
   (snake_tally sample game0 "B2x2|W1E1|E1S1".toList "B2x2".toList
      ["W1E1".toList, "E1S1".toList] 2 2 (by decide) (by decide) (by decide) (by rfl) (by decide)
      (by decide)).1 (by decide)⟩

/-- C17 as stated fails: with one `S` run, `B1x1|S1` is refused with `INIT_ERR_BAD_CHAR`
when `malloc` returns `NULL`; `B1x2147483648|E2147483647S1`, whose width does not fit
in `int`, is refused with `INIT_ERR_INCORRECT_DIMENSIONS`; and with no `S` run,
`B1x1|E00000000000000000001`, whose count has 20 digits, overruns `num_str`. -/
theorem snake_tally_other_code :
    (snake_runs (rows_runs (strtok_all (c_string "B1x1|S1".toList)).tail) = 1 ∧
      status_of (decompress_board_str no_memory game0 "B1x1|S1".toList)
        = some INIT_ERR_BAD_CHAR) ∧
    (snake_runs (rows_runs (strtok_all (c_string "B1x2147483648|E2147483647S1".toList)).tail) = 1 ∧
      set_dimensions "B1x2147483648".toList 0 0 = (INIT_SUCCESS, 1, 2147483648) ∧
      counts_sum (token_runs "E2147483647S1".toList) = 2147483648 ∧
      status_of (decompress_board_str sample game0 "B1x2147483648|E2147483647S1".toList)
        = some INIT_ERR_INCORRECT_DIMENSIONS) ∧
    (snake_runs (rows_runs (strtok_all (c_string "B1x1|E00000000000000000001".toList)).tail) = 0 ∧
      counts_sum (token_runs "E00000000000000000001".toList) = 1 ∧
      status_of (decompress_board_str sample game0 "B1x1|E00000000000000000001".toList) = none) :=
  ⟨⟨by decide, by rfl⟩, ⟨by decide, by decide, by decide, by rfl⟩, ⟨by decide, by decide, by rfl⟩⟩

/-- C18 (as amended): `strtok` yields no empty token, so an empty piece of the input
(after the last `'|'`, or between two `'|'`) is not a row token: the input is decoded
as the same input without that piece. -/
theorem empty_piece_skipped (P : Platform) (g : Game) (s a b : List Char) :
    (∀ t ∈ strtok_all (c_string s), t ≠ []) ∧
    decompress_board_str P g (c_string s ++ ['|']) = decompress_board_str P g s ∧
    decompress_board_str P g (a ++ '|' :: '|' :: b) = decompress_board_str P g (a ++ '|' :: b) :=
  ⟨strtok_all_ne_nil (c_string s), (decompress_bars P g 1 s a b).2.1,
    (decompress_bars P g 1 s a b).2.2.2⟩

/-- C18 as stated fails: `B1x1||S1` and `B1x1|S1|` have a valid header and an empty
piece between two `'|'`, or after the last one, and are decoded with `INIT_SUCCESS`. -/
theorem empty_piece_accepted :
    set_dimensions "B1x1".toList 0 0 = (INIT_SUCCESS, 1, 1) ∧
    split_bar "B1x1||S1".toList = ["B1x1".toList, [], "S1".toList] ∧
    status_of (decompress_board_str sample game0 "B1x1||S1".toList) = some INIT_SUCCESS ∧
    split_bar "B1x1|S1|".toList = ["B1x1".toList, "S1".toList, []] ∧
    status_of (decompress_board_str sample game0 "B1x1|S1|".toList) = some INIT_SUCCESS :=
  ⟨by decide, by decide, by rfl, by decide, by rfl⟩

/-- C19: `'|'` characters added at the start of the input, at the end of the string,
or after a `'|'` that is there leave the outcome of `decompress_board_str` as it is:
the same result code and the same state afterwards (height, width, cell array and
snake head included). -/
theorem separators_collapse (P : Platform) (g : Game) (n : Nat) (s a b : List Char) :
    decompress_board_str P g (List.replicate n '|' ++ s) = decompress_board_str P g s ∧
    decompress_board_str P g (c_string s ++ List.replicate n '|') = decompress_board_str P g s ∧
    decompress_board_str P g (s ++ List.replicate n '|') = decompress_board_str P g s ∧
    decompress_board_str P g (a ++ '|' :: (List.replicate n '|' ++ b))
      = decompress_board_str P g (a ++ '|' :: b) :=
  decompress_bars P g n s a b

/-- C20 at the input `B1x4611686018427387906|E1S1` (the width is `2^62 + 2`):
`(int)width` and `(int)total_cells` are both 2, the row of two cells passes the
checks, and the decoder returns `INIT_SUCCESS` with height 1 and width
4611686018427387906 after two stores, to the cells 0 and 1, not `height * width`.
The same at `B1x4294967298|E1S1` (the width is `2^32 + 2`). -/
theorem truncated_width_written :
    (∃ g1, decompress_board_str sample game0 "B1x4611686018427387906|E1S1".toList
        = .done (INIT_SUCCESS, g1) ∧
      to_int g1.width = 2 ∧ to_int (size_mul g1.width g1.height) = 2 ∧
      g1.cells.log.length = 2 ∧ g1.height * g1.width = 4611686018427387906) ∧
    (∃ g1, decompress_board_str sample game0 "B1x4294967298|E1S1".toList
        = .done (INIT_SUCCESS, g1) ∧
      to_int g1.width = 2 ∧ to_int (size_mul g1.width g1.height) = 2 ∧
      g1.cells.log.length = 2 ∧ g1.height * g1.width = 4294967298) :=
  ⟨⟨_, rfl, by decide, by decide, by decide, by decide⟩,
    ⟨_, rfl, by decide, by decide, by decide, by decide⟩⟩

end Snake

